import Mathlib

/-!
Verification development for the enum code generator (`gen/gen.go`).

The generator parses a Go file, finds type declarations whose doc comment
contains the marker token `@enumGenerated`, collects the names of value specs
whose declared type is that type, synthesizes `Values` and `String` methods,
replaces existing same-name/same-receiver methods in place (in `file.Decls`)
or appends the synthesized methods right after the marked declaration in the
newly built declaration list `newDecls`, and finally writes the file back.

The shallow embedding below models exactly the declaration-level behavior of
`Generate`, including the crucial aliasing detail of the source: the loop
iterates over `file.Decls` (reading the current, possibly already replaced,
element at each index) while appending to the separate `newDecls` list, and
`replaceMethod` mutates `file.Decls`, whose final value is then discarded in
favor of `newDecls`.
-/

namespace EnumGen

/-- A type expression attached to a value spec: either a bare identifier
(`*ast.Ident`) or anything else (selector, array type, ...). In the Go AST a
missing type is a nil `Expr`; we model that with `Option TyExpr`. -/
inductive TyExpr where
  | ident (name : String)
  | nonIdent (tag : Nat)
deriving DecidableEq, Repr

/-- One `*ast.ValueSpec`: a list of declared names and an optional declared
type. Covers both const and var specs (the spec kind is the group token). -/
structure ValueSpecData where
  names : List String
  ty : Option TyExpr
deriving DecidableEq, Repr

/-- One `ast.Spec` inside a `*ast.GenDecl`. -/
inductive Spec where
  | typeSpec (name : String)
  | valueSpec (vs : ValueSpecData)
  | importSpec (tag : Nat)
deriving DecidableEq, Repr

/-- The receiver type of a method: a bare identifier (`*ast.Ident`), a star
expression (`*ast.StarExpr`, pointer receiver), or anything else. -/
inductive RecvTy where
  | ident (name : String)
  | star (name : String)
  | otherRecv (tag : Nat)
deriving DecidableEq, Repr

/-- A function body. The two synthesized bodies are distinguished; any
pre-existing body is `raw`, carrying the value specs that occur inside the
body (a Go function body may declare local constants or variables, and
`ast.Inspect` traverses them). -/
inductive Body where
  | valuesBody (vals : List String)
  | stringBody
  | raw (tag : Nat) (localSpecs : List ValueSpecData)
deriving DecidableEq, Repr

/-- The `token.Token` of a `*ast.GenDecl`. -/
inductive Tok where
  | constTok
  | varTok
  | typeTok
  | importTok
deriving DecidableEq, Repr

/-- A top-level declaration (`ast.Decl`): a `*ast.GenDecl` with an optional
doc comment (list of comment-line texts), a `*ast.FuncDecl` with an optional
receiver, or anything else. -/
inductive Decl where
  | genDecl (doc : Option (List String)) (tok : Tok) (specs : List Spec)
  | funcDecl (recv : Option RecvTy) (name : String) (body : Body)
  | otherDecl (tag : Nat)
deriving DecidableEq, Repr

/-- The marker token looked up by `strings.Contains(comment.Text, "@enumGenerated")`. -/
def markerText : String := "@enumGenerated"

/-- Whether `pat` is a prefix of `s`, on character lists. -/
def charListPrefixOf : List Char → List Char → Bool
  | [], _ => true
  | _ :: _, [] => false
  | a :: as, b :: bs => a = b && charListPrefixOf as bs

/-- Whether `pat` occurs inside `s`, on character lists. -/
def charListInfixOf (pat : List Char) : List Char → Bool
  | [] => pat.isEmpty
  | s =>
    charListPrefixOf pat s ||
      (match s with
       | [] => false
       | _ :: rest => charListInfixOf pat rest)

/-- `strings.Contains s pat`. -/
def stringContains (s pat : String) : Bool :=
  charListInfixOf pat.data s.data

/-- The names contributed by one value spec for the target type `enumType`:
the spec is skipped when it has no names, and contributes its names exactly
when its declared type is the bare identifier `enumType`
(`valueSpec.Type.(*ast.Ident)` with `ident.Name == enumType`). -/
def valueSpecNames (enumType : String) (vs : ValueSpecData) : List String :=
  if vs.names.length = 0 then []
  else
    match vs.ty with
    | some (TyExpr.ident n) => if n = enumType then vs.names else []
    | _ => []

/-- The value specs contained in a body, in statement order (found by
`ast.Inspect` descending into the function body). -/
def bodyValueSpecs : Body → List ValueSpecData
  | Body.raw _ ls => ls
  | _ => []

/-- The value specs contained in one spec. -/
def specValueSpecs : Spec → List ValueSpecData
  | Spec.valueSpec vs => [vs]
  | _ => []

/-- The value specs contained in one declaration, in syntactic order. -/
def declValueSpecs : Decl → List ValueSpecData
  | Decl.genDecl _ _ specs => specs.foldl (fun a s => a ++ specValueSpecs s) []
  | Decl.funcDecl _ _ b => bodyValueSpecs b
  | Decl.otherDecl _ => []

/-- All value specs of the file in pre-order, as visited by `ast.Inspect`. -/
def fileValueSpecs (fds : List Decl) : List ValueSpecData :=
  fds.foldl (fun a d => a ++ declValueSpecs d) []

/-- `collectEnumValues`: walk the whole tree with `ast.Inspect`, and for each
value spec that has names and whose declared type is the bare identifier
`enumType`, append the declared names, in traversal order. -/
def collectEnumValues (fds : List Decl) (enumType : String) : List String :=
  (fileValueSpecs fds).foldl (fun a vs => a ++ valueSpecNames enumType vs) []

/-- `checkExistingMethods`: scan all method declarations; a method counts
when its receiver's type is the bare identifier `enumType` (a pointer
receiver `*ast.StarExpr` fails the `*ast.Ident` type assertion and is
skipped); the two booleans record whether a method named `Values` and one
named `String` were seen. -/
def checkExistingMethods (fds : List Decl) (enumType : String) : Bool × Bool :=
  fds.foldl
    (fun acc d =>
      match d with
      | Decl.funcDecl (some (RecvTy.ident n)) nm _ =>
          if n = enumType then
            if nm = "Values" then (true, acc.2)
            else if nm = "String" then (acc.1, true)
            else acc
          else acc
      | _ => acc)
    (false, false)

/-- The predicate used by `replaceMethod`'s scan: a method declaration whose
receiver type is the bare identifier `enumType` and whose name is
`methodName`. -/
def isTargetMethod (enumType methodName : String) : Decl → Bool
  | Decl.funcDecl (some (RecvTy.ident n)) nm _ => n = enumType && nm = methodName
  | _ => false

/-- `replaceMethod`: scan `file.Decls` in order; at the first declaration
matching (receiver type = `enumType`, name = `methodName`), overwrite that
slot with `newMethod` and return; when no declaration matches, the loop falls
off the end and the list is returned unchanged. -/
def replaceMethod (enumType methodName : String) (newMethod : Decl) : List Decl → List Decl
  | [] => []
  | d :: ds =>
    if isTargetMethod enumType methodName d then newMethod :: ds
    else d :: replaceMethod enumType methodName newMethod ds

/-- Whether `replaceMethod`'s scan finds a declaration to replace: it mirrors
the same loop, reporting whether the early `return` inside the loop is
reached. -/
def replaceFound (enumType methodName : String) : List Decl → Bool
  | [] => false
  | d :: ds =>
    if isTargetMethod enumType methodName d then true
    else replaceFound enumType methodName ds

/-- `generateValuesMethodAST`: the synthesized `Values` method, a value
receiver of type `enumType` and a body that is a single return of the
composite literal listing `values` in order. -/
def generateValuesMethodAST (enumType : String) (values : List String) : Decl :=
  Decl.funcDecl (some (RecvTy.ident enumType)) "Values" (Body.valuesBody values)

/-- `generateStringMethodAST`: the synthesized `String` method, a value
receiver of type `enumType` and a body returning
`fmt.Sprintf("%v", g)`. -/
def generateStringMethodAST (enumType : String) : Decl :=
  Decl.funcDecl (some (RecvTy.ident enumType)) "String" Body.stringBody

/-- Processing of one marked type name inside `Generate`'s loop. The state is
the pair (`file.Decls`, `newDecls`). Values are collected and existing
methods detected on the current `file.Decls`; then for each of the two
synthesized methods, the method is either replaced inside `file.Decls`
(when detected) or appended to `newDecls` (when not). -/
def processType (st : List Decl × List Decl) (enumType : String) : List Decl × List Decl :=
  let values := collectEnumValues st.1 enumType
  let hv := (checkExistingMethods st.1 enumType).1
  let hs := (checkExistingMethods st.1 enumType).2
  let valuesMethod := generateValuesMethodAST enumType values
  let stringMethod := generateStringMethodAST enumType
  let st1 :=
    if hv then (replaceMethod enumType "Values" valuesMethod st.1, st.2)
    else (st.1, st.2 ++ [valuesMethod])
  let st2 :=
    if hs then (replaceMethod enumType "String" stringMethod st1.1, st1.2)
    else (st1.1, st1.2 ++ [stringMethod])
  st2

/-- Processing of one spec of a marked declaration group: only type specs
are processed. -/
def processSpec (st : List Decl × List Decl) : Spec → List Decl × List Decl
  | Spec.typeSpec name => processType st name
  | _ => st

/-- Processing of one declaration inside `Generate`'s loop, after the
declaration was appended to `newDecls`: only a `*ast.GenDecl` with a non-nil
doc is inspected, and for every doc comment line containing the marker, every
type spec of the group is processed. -/
def processDecl (st : List Decl × List Decl) (d : Decl) : List Decl × List Decl :=
  match d with
  | Decl.genDecl (some docList) _ specs =>
      docList.foldl
        (fun st c =>
          if stringContains c markerText then specs.foldl processSpec st else st)
        st
  | _ => st

/-- `Generate`'s main loop. `fuel` is the number of iterations left (the
range statement iterates once per element of the original `file.Decls`, whose
length never changes); `idx` is the current index; `fds` is the current
`file.Decls` (mutated in place by `replaceMethod`); `nds` is `newDecls`. Each
iteration reads the current element at `idx`, appends it to `newDecls`, and
processes it. -/
def generateLoop : Nat → Nat → List Decl → List Decl → List Decl
  | 0, _, _, nds => nds
  | fuel + 1, idx, fds, nds =>
    match fds.get? idx with
    | none => nds
    | some d =>
      let st := processDecl (fds, nds ++ [d]) d
      generateLoop fuel (idx + 1) st.1 st.2

/-- The declaration-level content of `Generate` on a successfully parsed
file: run the loop over all declarations and return `newDecls`, which is what
`file.Decls` is set to before printing. -/
def generate (f : List Decl) : List Decl :=
  generateLoop f.length 0 f []

/-- A run report for `Generate`: whether the target file was truncated /
overwritten (`os.Create` reached and succeeded) and the declaration list that
was written. -/
structure RunReport where
  wrote : Bool
  written : Option (List Decl)
deriving DecidableEq, Repr

/-- The control flow of `Generate` around the loop: a parse error is reported
and the function returns before any file mutation; only after the loop does
`os.Create` truncate the target, and the new declaration list is printed.
`parsed` is the parse result (`none` on a parse error) and `createOk` is
whether `os.Create` succeeds. -/
def generateRun (parsed : Option (List Decl)) (createOk : Bool) : RunReport :=
  match parsed with
  | none => { wrote := false, written := none }
  | some f =>
      let out := generate f
      if createOk then { wrote := true, written := some out }
      else { wrote := false, written := none }

/-- The number of top-level methods named `methodName` with receiver type the
bare identifier `enumType`. -/
def countTarget (fds : List Decl) (enumType methodName : String) : Nat :=
  (fds.filter (isTargetMethod enumType methodName)).length

/-- Whether some top-level declaration matches (receiver `enumType`, name
`methodName`). -/
def hasTarget (fds : List Decl) (enumType methodName : String) : Bool :=
  fds.any (isTargetMethod enumType methodName)

/-- The claim-side description of value collection: the names of all value
specs of the whole tree whose declared type is the bare identifier `T`, in
pre-order, with no sorting and no removal of duplicates. -/
def preorderEnumNames (T : String) (fds : List Decl) : List String :=
  fds.flatMap (fun d => (declValueSpecs d).flatMap (valueSpecNames T))

/-- A declaration whose body declares no value specs (for a non-function
declaration this is vacuously true: their specs are not function-local). -/
def noLocalSpecs : Decl → Bool
  | Decl.funcDecl _ _ (Body.raw _ ls) => ls.isEmpty
  | _ => true

/-- A declaration that `Generate`'s loop only copies: processing it leaves
the state unchanged. Function declarations, other declarations, doc-less
groups, groups with no marker in the doc, and groups without type specs are
all inert. -/
def inertB : Decl → Bool
  | Decl.genDecl none _ _ => true
  | Decl.genDecl (some docs) _ specs =>
      docs.all (fun c => !stringContains c markerText) ||
        specs.all (fun s => match s with | Spec.typeSpec _ => false | _ => true)
  | Decl.funcDecl _ _ _ => true
  | Decl.otherDecl _ => true

end EnumGen

namespace EnumGen

/-! ### Basic rewriting lemmas for the collector and the detector -/

theorem foldl_append_eq {α β : Type} (g : α → List β) :
    ∀ (l : List α) (acc : List β), l.foldl (fun a x => a ++ g x) acc = acc ++ l.flatMap g
  | [], acc => by simp
  | x :: xs, acc => by
      simp [List.foldl_cons, foldl_append_eq g xs (acc ++ g x), List.append_assoc]

theorem fileValueSpecs_eq (fds : List Decl) :
    fileValueSpecs fds = fds.flatMap declValueSpecs := by
  simpa [fileValueSpecs] using foldl_append_eq declValueSpecs fds []

theorem collectEnumValues_eq (fds : List Decl) (T : String) :
    collectEnumValues fds T = preorderEnumNames T fds := by
  unfold collectEnumValues preorderEnumNames
  rw [foldl_append_eq, fileValueSpecs_eq, List.nil_append, List.flatMap_assoc]

theorem collectEnumValues_append (xs ys : List Decl) (T : String) :
    collectEnumValues (xs ++ ys) T = collectEnumValues xs T ++ collectEnumValues ys T := by
  simp [collectEnumValues_eq, preorderEnumNames]

theorem collectEnumValues_cons (d : Decl) (ds : List Decl) (T : String) :
    collectEnumValues (d :: ds) T
      = (declValueSpecs d).flatMap (valueSpecNames T) ++ collectEnumValues ds T := by
  simp [collectEnumValues_eq, preorderEnumNames]

theorem checkExistingMethods_eq (fds : List Decl) (T : String) :
    checkExistingMethods fds T = (hasTarget fds T "Values", hasTarget fds T "String") := by
  have main : ∀ (l : List Decl) (acc : Bool × Bool),
      l.foldl
        (fun acc d =>
          match d with
          | Decl.funcDecl (some (RecvTy.ident n)) nm _ =>
              if n = T then
                if nm = "Values" then (true, acc.2)
                else if nm = "String" then (acc.1, true)
                else acc
              else acc
          | _ => acc)
        acc
      = (acc.1 || hasTarget l T "Values", acc.2 || hasTarget l T "String") := by
    intro l
    induction l with
    | nil => intro acc; simp [hasTarget]
    | cons d ds ih =>
        intro acc
        rw [List.foldl_cons, ih]
        have hv : hasTarget (d :: ds) T "Values"
            = (isTargetMethod T "Values" d || hasTarget ds T "Values") := by
          simp [hasTarget]
        have hs : hasTarget (d :: ds) T "String"
            = (isTargetMethod T "String" d || hasTarget ds T "String") := by
          simp [hasTarget]
        rw [hv, hs]
        match d with
        | Decl.genDecl doc tok specs => simp [isTargetMethod]
        | Decl.otherDecl t => simp [isTargetMethod]
        | Decl.funcDecl none nm b => simp [isTargetMethod]
        | Decl.funcDecl (some (RecvTy.star n)) nm b => simp [isTargetMethod]
        | Decl.funcDecl (some (RecvTy.otherRecv t)) nm b => simp [isTargetMethod]
        | Decl.funcDecl (some (RecvTy.ident n)) nm b =>
            by_cases hn : n = T
            · by_cases hval : nm = "Values"
              · simp [isTargetMethod, hn, hval, Bool.or_assoc, Bool.or_comm]
              · by_cases hstr : nm = "String"
                · simp [isTargetMethod, hn, hval, hstr, Bool.or_assoc, Bool.or_comm]
                · simp [isTargetMethod, hn, hval, hstr]
            · simp [isTargetMethod, hn]
  simpa [checkExistingMethods] using main fds (false, false)

end EnumGen

namespace EnumGen

/-! ### Lemmas about `hasTarget` and `replaceMethod` -/

theorem hasTarget_nil (T M : String) : hasTarget [] T M = false := rfl

theorem hasTarget_cons (d : Decl) (ds : List Decl) (T M : String) :
    hasTarget (d :: ds) T M = (isTargetMethod T M d || hasTarget ds T M) := by
  simp [hasTarget]

theorem hasTarget_append (xs ys : List Decl) (T M : String) :
    hasTarget (xs ++ ys) T M = (hasTarget xs T M || hasTarget ys T M) := by
  simp [hasTarget]

theorem isTargetMethod_elim {T M : String} {d : Decl} (h : isTargetMethod T M d = true) :
    ∃ b, d = Decl.funcDecl (some (RecvTy.ident T)) M b := by
  match d with
  | Decl.genDecl doc tok specs => simp [isTargetMethod] at h
  | Decl.otherDecl t => simp [isTargetMethod] at h
  | Decl.funcDecl none nm b => simp [isTargetMethod] at h
  | Decl.funcDecl (some (RecvTy.star n)) nm b => simp [isTargetMethod] at h
  | Decl.funcDecl (some (RecvTy.otherRecv t)) nm b => simp [isTargetMethod] at h
  | Decl.funcDecl (some (RecvTy.ident n)) nm b =>
      simp [isTargetMethod] at h
      exact ⟨b, by rw [h.1, h.2]⟩

theorem isTargetMethod_congr {T M : String} {d e : Decl}
    (hd : isTargetMethod T M d = true) (he : isTargetMethod T M e = true)
    (T' M' : String) : isTargetMethod T' M' d = isTargetMethod T' M' e := by
  obtain ⟨b, rfl⟩ := isTargetMethod_elim hd
  obtain ⟨b', rfl⟩ := isTargetMethod_elim he
  simp [isTargetMethod]

theorem isTargetMethod_ne {T M T' M' : String} {d : Decl} (hM : M ≠ M')
    (h : isTargetMethod T M d = true) : isTargetMethod T' M' d = false := by
  obtain ⟨b, rfl⟩ := isTargetMethod_elim h
  simp [isTargetMethod, hM]

theorem replaceMethod_length (T M : String) (m : Decl) :
    ∀ l : List Decl, (replaceMethod T M m l).length = l.length
  | [] => rfl
  | d :: ds => by
      cases h : isTargetMethod T M d
      · simp [replaceMethod, h, replaceMethod_length T M m ds]
      · simp [replaceMethod, h]

theorem replaceMethod_not_found (T M : String) (m : Decl) :
    ∀ {l : List Decl}, hasTarget l T M = false → replaceMethod T M m l = l := by
  intro l
  induction l with
  | nil => intro _; rfl
  | cons d ds ih =>
      intro h
      rw [hasTarget_cons] at h
      rcases Bool.or_eq_false_iff.mp h with ⟨h1, h2⟩
      simp [replaceMethod, h1, ih h2]

theorem replaceFound_eq (T M : String) :
    ∀ (l : List Decl), replaceFound T M l = hasTarget l T M := by
  intro l
  induction l with
  | nil => rfl
  | cons d ds ih =>
      rw [hasTarget_cons, ← ih]
      cases h : isTargetMethod T M d
      · simp [replaceFound, h]
      · simp [replaceFound, h]

theorem replaceMethod_append_left (T M : String) (m : Decl) {xs : List Decl} (ys : List Decl)
    (h : hasTarget xs T M = true) :
    replaceMethod T M m (xs ++ ys) = replaceMethod T M m xs ++ ys := by
  induction xs with
  | nil => rw [hasTarget_nil] at h; exact absurd h (by simp)
  | cons d ds ih =>
      cases hd : isTargetMethod T M d
      · rw [hasTarget_cons, hd] at h
        simp only [Bool.false_or] at h
        simp [replaceMethod, hd, ih h]
      · simp [replaceMethod, hd]

theorem replaceMethod_append_right (T M : String) (m : Decl) {xs : List Decl} (ys : List Decl)
    (h : hasTarget xs T M = false) :
    replaceMethod T M m (xs ++ ys) = xs ++ replaceMethod T M m ys := by
  induction xs with
  | nil => simp
  | cons d ds ih =>
      rw [hasTarget_cons] at h
      rcases Bool.or_eq_false_iff.mp h with ⟨h1, h2⟩
      simp [replaceMethod, h1, ih h2]

theorem replaceMethod_cons_target (T M : String) (m : Decl) {d : Decl} (ds : List Decl)
    (h : isTargetMethod T M d = true) :
    replaceMethod T M m (d :: ds) = m :: ds := by
  simp [replaceMethod, h]

theorem replaceMethod_cons_other (T M : String) (m : Decl) {d : Decl} (ds : List Decl)
    (h : isTargetMethod T M d = false) :
    replaceMethod T M m (d :: ds) = d :: replaceMethod T M m ds := by
  simp [replaceMethod, h]

theorem replaceMethod_idem (T M : String) {m : Decl} (hm : isTargetMethod T M m = true) :
    ∀ l : List Decl, replaceMethod T M m (replaceMethod T M m l) = replaceMethod T M m l
  | [] => rfl
  | d :: ds => by
      cases h : isTargetMethod T M d
      · simp [replaceMethod, h, replaceMethod_idem T M hm ds]
      · simp [replaceMethod, h, hm]

theorem replaceMethod_comm (T T' M M' : String) {m m' : Decl} (hMM : M ≠ M')
    (hm : isTargetMethod T' M' m = false) (hm' : isTargetMethod T M m' = false) :
    ∀ l : List Decl,
      replaceMethod T M m (replaceMethod T' M' m' l)
        = replaceMethod T' M' m' (replaceMethod T M m l)
  | [] => rfl
  | d :: ds => by
      cases h : isTargetMethod T M d
      · cases h2 : isTargetMethod T' M' d
        · simp [replaceMethod, h, h2, replaceMethod_comm T T' M M' hMM hm hm' ds]
        · simp [replaceMethod, h, h2, hm, hm']
      · have h' : isTargetMethod T' M' d = false := isTargetMethod_ne hMM h
        simp [replaceMethod, h, h', hm, hm']

theorem hasTarget_replace_other (T T' M M' : String) {m : Decl} (hMM : M ≠ M')
    (hm : isTargetMethod T' M' m = false) :
    ∀ l : List Decl, hasTarget (replaceMethod T M m l) T' M' = hasTarget l T' M'
  | [] => rfl
  | d :: ds => by
      cases h : isTargetMethod T M d
      · rw [replaceMethod_cons_other T M m ds h, hasTarget_cons, hasTarget_cons,
          hasTarget_replace_other T T' M M' hMM hm ds]
      · have h' : isTargetMethod T' M' d = false := isTargetMethod_ne hMM h
        rw [replaceMethod_cons_target T M m ds h, hasTarget_cons, hasTarget_cons, hm, h']

theorem hasTarget_replace_same (T M : String) {m : Decl} (hm : isTargetMethod T M m = true) :
    ∀ l : List Decl, hasTarget (replaceMethod T M m l) T M = hasTarget l T M
  | [] => rfl
  | d :: ds => by
      cases h : isTargetMethod T M d
      · rw [replaceMethod_cons_other T M m ds h, hasTarget_cons, hasTarget_cons,
          hasTarget_replace_same T M hm ds]
      · rw [replaceMethod_cons_target T M m ds h, hasTarget_cons, hasTarget_cons, hm, h]

theorem countTarget_nil (T M : String) : countTarget [] T M = 0 := rfl

theorem countTarget_cons (d : Decl) (ds : List Decl) (T M : String) :
    countTarget (d :: ds) T M
      = (if isTargetMethod T M d then 1 else 0) + countTarget ds T M := by
  cases h : isTargetMethod T M d
  · simp [countTarget, h]
  · simp [countTarget, h, Nat.add_comm]

theorem countTarget_append (xs ys : List Decl) (T M : String) :
    countTarget (xs ++ ys) T M = countTarget xs T M + countTarget ys T M := by
  simp [countTarget]

theorem countTarget_replace (T M : String) {m : Decl} (hm : isTargetMethod T M m = true)
    (T' M' : String) :
    ∀ l : List Decl, countTarget (replaceMethod T M m l) T' M' = countTarget l T' M'
  | [] => rfl
  | d :: ds => by
      cases h : isTargetMethod T M d
      · rw [replaceMethod_cons_other T M m ds h, countTarget_cons, countTarget_cons,
          countTarget_replace T M hm T' M' ds]
      · rw [replaceMethod_cons_target T M m ds h, countTarget_cons, countTarget_cons,
          isTargetMethod_congr hm h T' M']

theorem countTarget_eq_zero {l : List Decl} {T M : String} (h : hasTarget l T M = false) :
    countTarget l T M = 0 := by
  induction l with
  | nil => rfl
  | cons d ds ih =>
      rw [hasTarget_cons] at h
      rcases Bool.or_eq_false_iff.mp h with ⟨h1, h2⟩
      rw [countTarget_cons, h1]
      simp [ih h2]

theorem countTarget_pos {l : List Decl} {T M : String} (h : hasTarget l T M = true) :
    1 ≤ countTarget l T M := by
  induction l with
  | nil => rw [hasTarget_nil] at h; exact absurd h (by simp)
  | cons d ds ih =>
      rw [countTarget_cons]
      cases hd : isTargetMethod T M d
      · rw [hasTarget_cons, hd] at h
        simp only [Bool.false_or] at h
        have := ih h
        omega
      · simp

theorem mem_replaceMethod {T M : String} {m x : Decl} :
    ∀ {l : List Decl}, x ∈ replaceMethod T M m l → x ∈ l ∨ x = m := by
  intro l
  induction l with
  | nil => intro h; simp [replaceMethod] at h
  | cons d ds ih =>
      intro h
      cases hd : isTargetMethod T M d
      · rw [replaceMethod_cons_other T M m ds hd] at h
        rcases List.mem_cons.mp h with h | h
        · exact Or.inl (h ▸ List.mem_cons_self d ds)
        · rcases ih h with h | h
          · exact Or.inl (List.mem_cons_of_mem d h)
          · exact Or.inr h
      · rw [replaceMethod_cons_target T M m ds hd] at h
        rcases List.mem_cons.mp h with h | h
        · exact Or.inr h
        · exact Or.inl (List.mem_cons_of_mem d h)

theorem replaceMethod_get? (T M : String) (m : Decl) :
    ∀ (l : List Decl) (i : Nat),
      (replaceMethod T M m l).get? i = l.get? i ∨ (replaceMethod T M m l).get? i = some m
  | [], i => Or.inl rfl
  | d :: ds, i => by
      cases hd : isTargetMethod T M d
      · rw [replaceMethod_cons_other T M m ds hd]
        match i with
        | 0 => exact Or.inl rfl
        | i + 1 => exact replaceMethod_get? T M m ds i
      · rw [replaceMethod_cons_target T M m ds hd]
        match i with
        | 0 => exact Or.inr rfl
        | i + 1 => exact Or.inl rfl

end EnumGen

namespace EnumGen

/-! ### Collection stability under method replacement -/

theorem declValueSpecs_synth_values (T : String) (vs : List String) :
    declValueSpecs (generateValuesMethodAST T vs) = [] := rfl

theorem declValueSpecs_synth_string (T : String) :
    declValueSpecs (generateStringMethodAST T) = [] := rfl

theorem declValueSpecs_of_noLocal {d : Decl} {r : Option RecvTy} {n : String} {b : Body}
    (hd : d = Decl.funcDecl r n b) (h : noLocalSpecs d = true) :
    declValueSpecs d = [] := by
  subst hd
  match b with
  | Body.valuesBody vs => rfl
  | Body.stringBody => rfl
  | Body.raw t ls =>
      simp [noLocalSpecs] at h
      simp [declValueSpecs, bodyValueSpecs, h]

theorem collect_replaceMethod (T M T' : String) {m : Decl}
    (hmv : declValueSpecs m = []) :
    ∀ {l : List Decl}, (∀ x ∈ l, noLocalSpecs x = true) →
      collectEnumValues (replaceMethod T M m l) T' = collectEnumValues l T' := by
  intro l
  induction l with
  | nil => intro _; rfl
  | cons d ds ih =>
      intro hl
      cases hd : isTargetMethod T M d
      · rw [replaceMethod_cons_other T M m ds hd, collectEnumValues_cons, collectEnumValues_cons,
          ih (fun x hx => hl x (List.mem_cons_of_mem d hx))]
      · obtain ⟨b, hb⟩ := isTargetMethod_elim hd
        rw [replaceMethod_cons_target T M m ds hd, collectEnumValues_cons, collectEnumValues_cons,
          hmv, declValueSpecs_of_noLocal hb (hl d (List.mem_cons_self d ds))]

theorem noLocalSpecs_replaceMethod (T M : String) {m : Decl} (hm : noLocalSpecs m = true)
    {l : List Decl} (hl : ∀ x ∈ l, noLocalSpecs x = true) :
    ∀ x ∈ replaceMethod T M m l, noLocalSpecs x = true := by
  intro x hx
  rcases mem_replaceMethod hx with h | h
  · exact hl x h
  · exact h ▸ hm

/-! ### Inert declarations: the loop only copies them -/

/-- A declaration whose processing in `Generate`'s loop leaves the state
(`file.Decls`, `newDecls`) unchanged. -/
def IsInert (d : Decl) : Prop := ∀ st : List Decl × List Decl, processDecl st d = st

theorem isInert_funcDecl (r : Option RecvTy) (n : String) (b : Body) :
    IsInert (Decl.funcDecl r n b) := fun _ => rfl

theorem isInert_otherDecl (t : Nat) : IsInert (Decl.otherDecl t) := fun _ => rfl

theorem isInert_genDecl_noDoc (tok : Tok) (specs : List Spec) :
    IsInert (Decl.genDecl none tok specs) := fun _ => rfl

theorem foldl_id {α β : Type} (g : β → α → β) (h : ∀ b a, g b a = b) :
    ∀ (l : List α) (b : β), l.foldl g b = b
  | [], b => rfl
  | x :: xs, b => by rw [List.foldl_cons, h b x, foldl_id g h xs b]

theorem processSpec_nonType (st : List Decl × List Decl) {s : Spec}
    (h : ∀ n, s ≠ Spec.typeSpec n) : processSpec st s = st := by
  match s with
  | Spec.typeSpec n => exact absurd rfl (h n)
  | Spec.valueSpec vs => rfl
  | Spec.importSpec t => rfl

theorem isInert_genDecl_noMarker {docs : List String} (tok : Tok) (specs : List Spec)
    (h : ∀ c ∈ docs, stringContains c markerText = false) :
    IsInert (Decl.genDecl (some docs) tok specs) := by
  intro st
  show docs.foldl
      (fun st c => if stringContains c markerText then specs.foldl processSpec st else st) st = st
  induction docs generalizing st with
  | nil => rfl
  | cons c cs ih =>
      rw [List.foldl_cons, h c (List.mem_cons_self c cs)]
      exact ih (fun c' hc' => h c' (List.mem_cons_of_mem c hc')) st

theorem isInert_genDecl_noTypeSpec {specs : List Spec} (docs : List String) (tok : Tok)
    (h : ∀ s ∈ specs, ∀ n, s ≠ Spec.typeSpec n) :
    IsInert (Decl.genDecl (some docs) tok specs) := by
  intro st
  show docs.foldl
      (fun st c => if stringContains c markerText then specs.foldl processSpec st else st) st = st
  have hspecs : ∀ st : List Decl × List Decl, specs.foldl processSpec st = st := by
    intro st
    induction specs generalizing st with
    | nil => rfl
    | cons s ss ih =>
        rw [List.foldl_cons, processSpec_nonType st (h s (List.mem_cons_self s ss))]
        exact ih (fun s' hs' => h s' (List.mem_cons_of_mem s hs')) st
  apply foldl_id
  intro st c
  cases hc : stringContains c markerText
  · simp
  · simp [hspecs st]

theorem isInert_of_inertB {d : Decl} (h : inertB d = true) : IsInert d := by
  match d with
  | Decl.funcDecl r n b => exact isInert_funcDecl r n b
  | Decl.otherDecl t => exact isInert_otherDecl t
  | Decl.genDecl none tok specs => exact isInert_genDecl_noDoc tok specs
  | Decl.genDecl (some docs) tok specs =>
      simp [inertB] at h
      rcases h with h | h
      · exact isInert_genDecl_noMarker tok specs (by
          intro c hc
          have := h c hc
          simp [this])
      · exact isInert_genDecl_noTypeSpec docs tok (by
          intro s hs n hn
          have := h s hs
          rw [hn] at this
          simp at this)

end EnumGen

namespace EnumGen

/-! ### Unfolding `processType` by detection outcome -/

theorem isTargetMethod_synth_values (T : String) (vs : List String) :
    isTargetMethod T "Values" (generateValuesMethodAST T vs) = true := by
  simp [isTargetMethod, generateValuesMethodAST]

theorem isTargetMethod_synth_string (T : String) :
    isTargetMethod T "String" (generateStringMethodAST T) = true := by
  simp [isTargetMethod, generateStringMethodAST]

theorem isTargetMethod_synth_values_ne (T T' M : String) (vs : List String) (h : M ≠ "Values") :
    isTargetMethod T' M (generateValuesMethodAST T vs) = false := by
  simp [isTargetMethod, generateValuesMethodAST]
  intro _
  exact fun hc => absurd hc.symm h

theorem isTargetMethod_synth_string_ne (T T' M : String) (h : M ≠ "String") :
    isTargetMethod T' M (generateStringMethodAST T) = false := by
  simp [isTargetMethod, generateStringMethodAST]
  intro _
  exact fun hc => absurd hc.symm h

theorem processType_ff {fds : List Decl} {T : String} (nds : List Decl)
    (hv : hasTarget fds T "Values" = false) (hs : hasTarget fds T "String" = false) :
    processType (fds, nds) T
      = (fds, nds ++ [generateValuesMethodAST T (collectEnumValues fds T),
                      generateStringMethodAST T]) := by
  simp [processType, checkExistingMethods_eq, hv, hs]

theorem processType_tf {fds : List Decl} {T : String} (nds : List Decl)
    (hv : hasTarget fds T "Values" = true) (hs : hasTarget fds T "String" = false) :
    processType (fds, nds) T
      = (replaceMethod T "Values" (generateValuesMethodAST T (collectEnumValues fds T)) fds,
         nds ++ [generateStringMethodAST T]) := by
  simp [processType, checkExistingMethods_eq, hv, hs]

theorem processType_ft {fds : List Decl} {T : String} (nds : List Decl)
    (hv : hasTarget fds T "Values" = false) (hs : hasTarget fds T "String" = true) :
    processType (fds, nds) T
      = (replaceMethod T "String" (generateStringMethodAST T) fds,
         nds ++ [generateValuesMethodAST T (collectEnumValues fds T)]) := by
  simp [processType, checkExistingMethods_eq, hv, hs]

theorem processType_tt {fds : List Decl} {T : String} (nds : List Decl)
    (hv : hasTarget fds T "Values" = true) (hs : hasTarget fds T "String" = true) :
    processType (fds, nds) T
      = (replaceMethod T "String" (generateStringMethodAST T)
           (replaceMethod T "Values" (generateValuesMethodAST T (collectEnumValues fds T)) fds),
         nds) := by
  simp [processType, checkExistingMethods_eq, hv, hs]

/-! ### Length preservation through processing -/

theorem foldl_fst_length {α : Type} (g : (List Decl × List Decl) → α → (List Decl × List Decl))
    (h : ∀ st a, ((g st a).1).length = st.1.length) :
    ∀ (l : List α) (st : List Decl × List Decl), ((l.foldl g st).1).length = st.1.length
  | [], st => rfl
  | x :: xs, st => by
      rw [List.foldl_cons, foldl_fst_length g h xs (g st x), h st x]

theorem processType_fst_length (st : List Decl × List Decl) (T : String) :
    ((processType st T).1).length = st.1.length := by
  cases hv : hasTarget st.1 T "Values" <;> cases hs : hasTarget st.1 T "String"
  · rw [processType_ff st.2 hv hs]
  · rw [processType_ft st.2 hv hs]; exact replaceMethod_length _ _ _ _
  · rw [processType_tf st.2 hv hs]; exact replaceMethod_length _ _ _ _
  · rw [processType_tt st.2 hv hs]
    rw [replaceMethod_length, replaceMethod_length]

theorem processSpec_fst_length (st : List Decl × List Decl) (s : Spec) :
    ((processSpec st s).1).length = st.1.length := by
  match s with
  | Spec.typeSpec n => exact processType_fst_length st n
  | Spec.valueSpec vs => rfl
  | Spec.importSpec t => rfl

theorem processDecl_fst_length (st : List Decl × List Decl) (d : Decl) :
    ((processDecl st d).1).length = st.1.length := by
  match d with
  | Decl.funcDecl r n b => rfl
  | Decl.otherDecl t => rfl
  | Decl.genDecl none tok specs => rfl
  | Decl.genDecl (some docs) tok specs =>
      show ((docs.foldl
        (fun st c => if stringContains c markerText then specs.foldl processSpec st else st)
        st).1).length = st.1.length
      apply foldl_fst_length
      intro st c
      cases hc : stringContains c markerText
      · simp
      · simp
        exact foldl_fst_length processSpec processSpec_fst_length specs st

/-! ### The loop: copying inert declarations, processing a marked one -/

theorem generateLoop_tail :
    ∀ (fuel idx : Nat) (fds nds : List Decl),
      fds.length ≤ idx + fuel → (∀ x ∈ fds.drop idx, IsInert x) →
      generateLoop fuel idx fds nds = nds ++ fds.drop idx
  | 0, idx, fds, nds => by
      intro hfuel _
      rw [List.drop_eq_nil_of_le (by omega)]
      simp [generateLoop]
  | fuel + 1, idx, fds, nds => by
      intro hfuel hin
      by_cases hidx : idx < fds.length
      · have hdrop : fds.drop idx = fds[idx] :: fds.drop (idx + 1) :=
          List.drop_eq_getElem_cons hidx
        have hget : fds.get? idx = some fds[idx] := List.get?_eq_getElem? .. ▸ (by
          simp [List.getElem?_eq_getElem hidx])
        have hinert : IsInert fds[idx] := hin fds[idx] (by rw [hdrop]; exact List.mem_cons_self ..)
        show (match fds.get? idx with
          | none => nds
          | some d =>
            let st := processDecl (fds, nds ++ [d]) d
            generateLoop fuel (idx + 1) st.1 st.2) = nds ++ fds.drop idx
        rw [hget]
        simp only [hinert (fds, nds ++ [fds[idx]])]
        rw [generateLoop_tail fuel (idx + 1) fds (nds ++ [fds[idx]]) (by omega)
            (by intro x hx; exact hin x (by rw [hdrop]; exact List.mem_cons_of_mem _ hx))]
        rw [hdrop]
        simp
      · have hget : fds.get? idx = none := by
          rw [List.get?_eq_getElem?]
          exact List.getElem?_eq_none (by omega)
        show (match fds.get? idx with
          | none => nds
          | some d =>
            let st := processDecl (fds, nds ++ [d]) d
            generateLoop fuel (idx + 1) st.1 st.2) = nds ++ fds.drop idx
        rw [hget, List.drop_eq_nil_of_le (by omega)]
        simp

theorem generateLoop_skip :
    ∀ (k fuel idx : Nat) (fds nds : List Decl),
      idx + k ≤ fds.length → (∀ x ∈ (fds.drop idx).take k, IsInert x) →
      generateLoop (k + fuel) idx fds nds
        = generateLoop fuel (idx + k) fds (nds ++ (fds.drop idx).take k)
  | 0, fuel, idx, fds, nds => by
      intro _ _
      simp [Nat.zero_add]
  | k + 1, fuel, idx, fds, nds => by
      intro hlen hin
      have hidx : idx < fds.length := by omega
      have hdrop : fds.drop idx = fds[idx] :: fds.drop (idx + 1) :=
        List.drop_eq_getElem_cons hidx
      have hget : fds.get? idx = some fds[idx] := List.get?_eq_getElem? .. ▸ (by
        simp [List.getElem?_eq_getElem hidx])
      have htake : (fds.drop idx).take (k + 1) = fds[idx] :: (fds.drop (idx + 1)).take k := by
        rw [hdrop, List.take_succ_cons]
      have hinert : IsInert fds[idx] := hin fds[idx] (by rw [htake]; exact List.mem_cons_self ..)
      have hstep : (k + 1) + fuel = (k + fuel) + 1 := by omega
      rw [hstep]
      show (match fds.get? idx with
        | none => nds
        | some d =>
          let st := processDecl (fds, nds ++ [d]) d
          generateLoop (k + fuel) (idx + 1) st.1 st.2) = _
      rw [hget]
      simp only [hinert (fds, nds ++ [fds[idx]])]
      rw [generateLoop_skip k fuel (idx + 1) fds (nds ++ [fds[idx]]) (by omega)
          (by intro x hx; exact hin x (by rw [htake]; exact List.mem_cons_of_mem _ hx))]
      have harith : idx + 1 + k = idx + (k + 1) := by omega
      rw [harith, htake]
      simp

end EnumGen

namespace EnumGen

/-! ### Unfolding `Generate` on a file with one marked declaration -/

theorem docFoldl_noMarker (specs : List Spec) {docs : List String}
    (h : ∀ c ∈ docs, stringContains c markerText = false) :
    ∀ st : List Decl × List Decl,
      docs.foldl
        (fun st c => if stringContains c markerText then specs.foldl processSpec st else st)
        st = st := by
  induction docs with
  | nil => intro st; rfl
  | cons c cs ih =>
      intro st
      rw [List.foldl_cons, h c (List.mem_cons_self c cs)]
      exact ih (fun c' hc' => h c' (List.mem_cons_of_mem c hc')) st

theorem processDecl_marked (st : List Decl × List Decl) (tok : Tok) (T : String)
    {docs1 docs2 : List String} {c : String}
    (h1 : ∀ x ∈ docs1, stringContains x markerText = false)
    (h2 : ∀ x ∈ docs2, stringContains x markerText = false)
    (hc : stringContains c markerText = true) :
    processDecl st (Decl.genDecl (some (docs1 ++ c :: docs2)) tok [Spec.typeSpec T])
      = processType st T := by
  show (docs1 ++ c :: docs2).foldl
      (fun st c => if stringContains c markerText then [Spec.typeSpec T].foldl processSpec st
       else st) st = processType st T
  rw [List.foldl_append, docFoldl_noMarker [Spec.typeSpec T] h1 st, List.foldl_cons, hc]
  simp only [if_true]
  rw [docFoldl_noMarker [Spec.typeSpec T] h2]
  rfl

theorem mem_drop_get? {α : Type} {x : α} {l : List α} {n : Nat} (h : x ∈ l.drop n) :
    ∃ i, l.get? (n + i) = some x := by
  obtain ⟨i, hi, hget⟩ := List.getElem_of_mem h
  refine ⟨i, ?_⟩
  rw [List.get?_eq_getElem?, ← List.getElem?_drop, List.getElem?_eq_getElem hi, hget]

theorem processType_fst_elem (fds nds : List Decl) (T : String) (i : Nat) :
    (processType (fds, nds) T).1.get? i = fds.get? i
      ∨ (∃ vs, (processType (fds, nds) T).1.get? i = some (generateValuesMethodAST T vs))
      ∨ (processType (fds, nds) T).1.get? i = some (generateStringMethodAST T) := by
  cases hv : hasTarget fds T "Values" <;> cases hs : hasTarget fds T "String"
  · rw [processType_ff nds hv hs]
    exact Or.inl rfl
  · rw [processType_ft nds hv hs]
    rcases replaceMethod_get? T "String" (generateStringMethodAST T) fds i with h | h
    · exact Or.inl h
    · exact Or.inr (Or.inr h)
  · rw [processType_tf nds hv hs]
    rcases replaceMethod_get? T "Values"
        (generateValuesMethodAST T (collectEnumValues fds T)) fds i with h | h
    · exact Or.inl h
    · exact Or.inr (Or.inl ⟨collectEnumValues fds T, h⟩)
  · rw [processType_tt nds hv hs]
    rcases replaceMethod_get? T "String" (generateStringMethodAST T)
        (replaceMethod T "Values" (generateValuesMethodAST T (collectEnumValues fds T)) fds) i
      with h | h
    · rw [h]
      rcases replaceMethod_get? T "Values"
          (generateValuesMethodAST T (collectEnumValues fds T)) fds i with h' | h'
      · exact Or.inl h'
      · exact Or.inr (Or.inl ⟨collectEnumValues fds T, h'⟩)
    · exact Or.inr (Or.inr h)

theorem generate_marked_unfold (pre post : List Decl) (tok : Tok) (T : String)
    {docs1 docs2 : List String} {c : String}
    (h1 : ∀ x ∈ docs1, stringContains x markerText = false)
    (h2 : ∀ x ∈ docs2, stringContains x markerText = false)
    (hc : stringContains c markerText = true)
    (hpre : ∀ x ∈ pre, IsInert x) (hpost : ∀ x ∈ post, IsInert x) :
    generate
        (pre ++ Decl.genDecl (some (docs1 ++ c :: docs2)) tok [Spec.typeSpec T] :: post)
      = (processType
            (pre ++ Decl.genDecl (some (docs1 ++ c :: docs2)) tok [Spec.typeSpec T] :: post,
             pre ++ [Decl.genDecl (some (docs1 ++ c :: docs2)) tok [Spec.typeSpec T]]) T).2
          ++ (processType
                (pre ++ Decl.genDecl (some (docs1 ++ c :: docs2)) tok [Spec.typeSpec T] :: post,
                 pre ++ [Decl.genDecl (some (docs1 ++ c :: docs2)) tok [Spec.typeSpec T]]) T).1.drop
              (pre.length + 1) := by
  set dm := Decl.genDecl (some (docs1 ++ c :: docs2)) tok [Spec.typeSpec T] with hdm
  set f := pre ++ dm :: post with hf
  have hflen : f.length = pre.length + (1 + post.length) := by
    rw [hf]
    simp [List.length_append]
    omega
  have htake : (f.drop 0).take pre.length = pre := by
    rw [List.drop_zero, hf]
    exact List.take_left pre (dm :: post)
  show generateLoop f.length 0 f [] = _
  rw [hflen, generateLoop_skip pre.length (1 + post.length) 0 f [] (by omega)
      (by rw [htake]; exact hpre)]
  rw [htake, List.nil_append]
  have hget : f.get? (0 + pre.length) = some dm := by
    rw [Nat.zero_add, List.get?_eq_getElem?, hf,
      List.getElem?_append_right (Nat.le_refl pre.length)]
    simp
  have hone : 1 + post.length = post.length + 1 := by omega
  rw [hone]
  show (match f.get? (0 + pre.length) with
    | none => pre
    | some d =>
      let st := processDecl (f, pre ++ [d]) d
      generateLoop post.length (0 + pre.length + 1) st.1 st.2) = _
  rw [hget]
  simp only
  rw [processDecl_marked (f, pre ++ [dm]) tok T h1 h2 hc]
  have hstlen : ((processType (f, pre ++ [dm]) T).1).length = f.length :=
    processType_fst_length (f, pre ++ [dm]) T
  have hinertTail : ∀ x ∈ (processType (f, pre ++ [dm]) T).1.drop (pre.length + 1), IsInert x := by
    intro x hx
    obtain ⟨i, hi⟩ := mem_drop_get? hx
    rcases processType_fst_elem f (pre ++ [dm]) T (pre.length + 1 + i) with h | ⟨vs, h⟩ | h
    · rw [h] at hi
      have hpostx : x ∈ post := by
        rw [hf, List.get?_eq_getElem?] at hi
        have hlen2 : (pre ++ [dm]).length ≤ pre.length + 1 + i := by simp
        rw [show pre ++ dm :: post = (pre ++ [dm]) ++ post by simp,
          List.getElem?_append_right hlen2] at hi
        have : (pre.length + 1 + i) - (pre ++ [dm]).length = i := by simp
        rw [this] at hi
        exact List.get?_mem (by rw [List.get?_eq_getElem?]; exact hi)
      exact hpost x hpostx
    · rw [h] at hi
      cases hi
      exact isInert_funcDecl _ _ _
    · rw [h] at hi
      cases hi
      exact isInert_funcDecl _ _ _
  rw [Nat.zero_add, generateLoop_tail post.length (pre.length + 1)
      (processType (f, pre ++ [dm]) T).1 (processType (f, pre ++ [dm]) T).2
      (by rw [hstlen, hflen]; omega) hinertTail]

end EnumGen

namespace EnumGen

/-! ### The output of `Generate`, case by case

For a file `pre ++ dm :: post` with a single marked declaration `dm`
(doc block with exactly one marker comment, single type spec `T`) and inert
`pre`/`post`, the output is determined by where the first pre-existing
`Values` / `String` method for `T` sits: nowhere (the synthesized method is
appended right after `dm`), in `pre` (the in-place replacement is lost,
because `newDecls` already holds the original declaration), or in `post`
(the in-place replacement lands in the part of `file.Decls` that the loop
has not yet copied, so it is effective). -/

theorem hasTarget_marked (pre post : List Decl) (doc : Option (List String)) (tok : Tok)
    (specs : List Spec) (T M : String) :
    hasTarget (pre ++ Decl.genDecl doc tok specs :: post) T M
      = (hasTarget pre T M || hasTarget post T M) := by
  rw [hasTarget_append, hasTarget_cons]
  simp [isTargetMethod]

theorem drop_middle (xs post : List Decl) (d : Decl) :
    (xs ++ d :: post).drop (xs.length + 1) = post := by
  rw [show xs ++ d :: post = (xs ++ [d]) ++ post by simp,
    show xs.length + 1 = (xs ++ [d]).length by simp]
  exact List.drop_left _ _

theorem drop_middle_of_len (xs post : List Decl) (d : Decl) (n : Nat) (h : xs.length = n) :
    (xs ++ d :: post).drop (n + 1) = post := by
  subst h
  exact drop_middle xs post d

theorem replaceMethod_cons_genDecl (T M : String) (m : Decl) (doc : Option (List String))
    (tok : Tok) (specs : List Spec) (ds : List Decl) :
    replaceMethod T M m (Decl.genDecl doc tok specs :: ds)
      = Decl.genDecl doc tok specs :: replaceMethod T M m ds :=
  replaceMethod_cons_other T M m ds rfl

theorem generate_vNone_sNone (pre post : List Decl) (tok : Tok) (T : String)
    {docs1 docs2 : List String} {c : String}
    (h1 : ∀ x ∈ docs1, stringContains x markerText = false)
    (h2 : ∀ x ∈ docs2, stringContains x markerText = false)
    (hc : stringContains c markerText = true)
    (hpre : ∀ x ∈ pre, IsInert x) (hpost : ∀ x ∈ post, IsInert x)
    (hVpre : hasTarget pre T "Values" = false) (hVpost : hasTarget post T "Values" = false)
    (hSpre : hasTarget pre T "String" = false) (hSpost : hasTarget post T "String" = false) :
    generate (pre ++ Decl.genDecl (some (docs1 ++ c :: docs2)) tok [Spec.typeSpec T] :: post)
      = pre ++ Decl.genDecl (some (docs1 ++ c :: docs2)) tok [Spec.typeSpec T]
          :: generateValuesMethodAST T
               (collectEnumValues
                 (pre ++ Decl.genDecl (some (docs1 ++ c :: docs2)) tok [Spec.typeSpec T] :: post)
                 T)
          :: generateStringMethodAST T :: post := by
  have hv : hasTarget
      (pre ++ Decl.genDecl (some (docs1 ++ c :: docs2)) tok [Spec.typeSpec T] :: post)
      T "Values" = false := by
    rw [hasTarget_marked, hVpre, hVpost]
    rfl
  have hs : hasTarget
      (pre ++ Decl.genDecl (some (docs1 ++ c :: docs2)) tok [Spec.typeSpec T] :: post)
      T "String" = false := by
    rw [hasTarget_marked, hSpre, hSpost]
    rfl
  rw [generate_marked_unfold pre post tok T h1 h2 hc hpre hpost,
    processType_ff _ hv hs]
  simp only
  rw [drop_middle_of_len pre post _ pre.length rfl]
  simp

theorem generate_vNone_sPre (pre post : List Decl) (tok : Tok) (T : String)
    {docs1 docs2 : List String} {c : String}
    (h1 : ∀ x ∈ docs1, stringContains x markerText = false)
    (h2 : ∀ x ∈ docs2, stringContains x markerText = false)
    (hc : stringContains c markerText = true)
    (hpre : ∀ x ∈ pre, IsInert x) (hpost : ∀ x ∈ post, IsInert x)
    (hVpre : hasTarget pre T "Values" = false) (hVpost : hasTarget post T "Values" = false)
    (hSpre : hasTarget pre T "String" = true) :
    generate (pre ++ Decl.genDecl (some (docs1 ++ c :: docs2)) tok [Spec.typeSpec T] :: post)
      = pre ++ Decl.genDecl (some (docs1 ++ c :: docs2)) tok [Spec.typeSpec T]
          :: generateValuesMethodAST T
               (collectEnumValues
                 (pre ++ Decl.genDecl (some (docs1 ++ c :: docs2)) tok [Spec.typeSpec T] :: post)
                 T)
          :: post := by
  have hv : hasTarget
      (pre ++ Decl.genDecl (some (docs1 ++ c :: docs2)) tok [Spec.typeSpec T] :: post)
      T "Values" = false := by
    rw [hasTarget_marked, hVpre, hVpost]
    rfl
  have hs : hasTarget
      (pre ++ Decl.genDecl (some (docs1 ++ c :: docs2)) tok [Spec.typeSpec T] :: post)
      T "String" = true := by
    rw [hasTarget_marked, hSpre]
    rfl
  rw [generate_marked_unfold pre post tok T h1 h2 hc hpre hpost,
    processType_ft _ hv hs]
  simp only
  rw [replaceMethod_append_left T "String" (generateStringMethodAST T) _ hSpre,
    drop_middle_of_len _ post _ pre.length (replaceMethod_length T "String" _ pre)]
  simp

theorem generate_vNone_sPost (pre post : List Decl) (tok : Tok) (T : String)
    {docs1 docs2 : List String} {c : String}
    (h1 : ∀ x ∈ docs1, stringContains x markerText = false)
    (h2 : ∀ x ∈ docs2, stringContains x markerText = false)
    (hc : stringContains c markerText = true)
    (hpre : ∀ x ∈ pre, IsInert x) (hpost : ∀ x ∈ post, IsInert x)
    (hVpre : hasTarget pre T "Values" = false) (hVpost : hasTarget post T "Values" = false)
    (hSpre : hasTarget pre T "String" = false) (hSpost : hasTarget post T "String" = true) :
    generate (pre ++ Decl.genDecl (some (docs1 ++ c :: docs2)) tok [Spec.typeSpec T] :: post)
      = pre ++ Decl.genDecl (some (docs1 ++ c :: docs2)) tok [Spec.typeSpec T]
          :: generateValuesMethodAST T
               (collectEnumValues
                 (pre ++ Decl.genDecl (some (docs1 ++ c :: docs2)) tok [Spec.typeSpec T] :: post)
                 T)
          :: replaceMethod T "String" (generateStringMethodAST T) post := by
  have hv : hasTarget
      (pre ++ Decl.genDecl (some (docs1 ++ c :: docs2)) tok [Spec.typeSpec T] :: post)
      T "Values" = false := by
    rw [hasTarget_marked, hVpre, hVpost]
    rfl
  have hs : hasTarget
      (pre ++ Decl.genDecl (some (docs1 ++ c :: docs2)) tok [Spec.typeSpec T] :: post)
      T "String" = true := by
    rw [hasTarget_marked, hSpre, hSpost]
    rfl
  rw [generate_marked_unfold pre post tok T h1 h2 hc hpre hpost,
    processType_ft _ hv hs]
  simp only
  rw [replaceMethod_append_right T "String" (generateStringMethodAST T) _ hSpre,
    replaceMethod_cons_genDecl T "String" (generateStringMethodAST T) _ _ _ post,
    drop_middle_of_len pre _ _ pre.length rfl]
  simp

theorem generate_vPre_sNone (pre post : List Decl) (tok : Tok) (T : String)
    {docs1 docs2 : List String} {c : String}
    (h1 : ∀ x ∈ docs1, stringContains x markerText = false)
    (h2 : ∀ x ∈ docs2, stringContains x markerText = false)
    (hc : stringContains c markerText = true)
    (hpre : ∀ x ∈ pre, IsInert x) (hpost : ∀ x ∈ post, IsInert x)
    (hVpre : hasTarget pre T "Values" = true)
    (hSpre : hasTarget pre T "String" = false) (hSpost : hasTarget post T "String" = false) :
    generate (pre ++ Decl.genDecl (some (docs1 ++ c :: docs2)) tok [Spec.typeSpec T] :: post)
      = pre ++ Decl.genDecl (some (docs1 ++ c :: docs2)) tok [Spec.typeSpec T]
          :: generateStringMethodAST T :: post := by
  have hv : hasTarget
      (pre ++ Decl.genDecl (some (docs1 ++ c :: docs2)) tok [Spec.typeSpec T] :: post)
      T "Values" = true := by
    rw [hasTarget_marked, hVpre]
    rfl
  have hs : hasTarget
      (pre ++ Decl.genDecl (some (docs1 ++ c :: docs2)) tok [Spec.typeSpec T] :: post)
      T "String" = false := by
    rw [hasTarget_marked, hSpre, hSpost]
    rfl
  rw [generate_marked_unfold pre post tok T h1 h2 hc hpre hpost,
    processType_tf _ hv hs]
  simp only
  rw [replaceMethod_append_left T "Values" _ _ hVpre,
    drop_middle_of_len _ post _ pre.length (replaceMethod_length T "Values" _ pre)]
  simp

theorem generate_vPre_sPre (pre post : List Decl) (tok : Tok) (T : String)
    {docs1 docs2 : List String} {c : String}
    (h1 : ∀ x ∈ docs1, stringContains x markerText = false)
    (h2 : ∀ x ∈ docs2, stringContains x markerText = false)
    (hc : stringContains c markerText = true)
    (hpre : ∀ x ∈ pre, IsInert x) (hpost : ∀ x ∈ post, IsInert x)
    (hVpre : hasTarget pre T "Values" = true)
    (hSpre : hasTarget pre T "String" = true) :
    generate (pre ++ Decl.genDecl (some (docs1 ++ c :: docs2)) tok [Spec.typeSpec T] :: post)
      = pre ++ Decl.genDecl (some (docs1 ++ c :: docs2)) tok [Spec.typeSpec T] :: post := by
  have hv : hasTarget
      (pre ++ Decl.genDecl (some (docs1 ++ c :: docs2)) tok [Spec.typeSpec T] :: post)
      T "Values" = true := by
    rw [hasTarget_marked, hVpre]
    rfl
  have hs : hasTarget
      (pre ++ Decl.genDecl (some (docs1 ++ c :: docs2)) tok [Spec.typeSpec T] :: post)
      T "String" = true := by
    rw [hasTarget_marked, hSpre]
    rfl
  rw [generate_marked_unfold pre post tok T h1 h2 hc hpre hpost,
    processType_tt _ hv hs]
  simp only
  rw [replaceMethod_append_left T "Values" _ _ hVpre]
  have hSpre' : hasTarget (replaceMethod T "Values"
      (generateValuesMethodAST T (collectEnumValues
        (pre ++ Decl.genDecl (some (docs1 ++ c :: docs2)) tok [Spec.typeSpec T] :: post) T)) pre)
      T "String" = true := by
    rw [hasTarget_replace_other T T "Values" "String" (by decide)
      (isTargetMethod_synth_values_ne T T "String" _ (by decide)) pre]
    exact hSpre
  rw [replaceMethod_append_left T "String" _ _ hSpre',
    drop_middle_of_len _ post _ pre.length
      (by rw [replaceMethod_length, replaceMethod_length])]
  simp

theorem generate_vPre_sPost (pre post : List Decl) (tok : Tok) (T : String)
    {docs1 docs2 : List String} {c : String}
    (h1 : ∀ x ∈ docs1, stringContains x markerText = false)
    (h2 : ∀ x ∈ docs2, stringContains x markerText = false)
    (hc : stringContains c markerText = true)
    (hpre : ∀ x ∈ pre, IsInert x) (hpost : ∀ x ∈ post, IsInert x)
    (hVpre : hasTarget pre T "Values" = true)
    (hSpre : hasTarget pre T "String" = false) (hSpost : hasTarget post T "String" = true) :
    generate (pre ++ Decl.genDecl (some (docs1 ++ c :: docs2)) tok [Spec.typeSpec T] :: post)
      = pre ++ Decl.genDecl (some (docs1 ++ c :: docs2)) tok [Spec.typeSpec T]
          :: replaceMethod T "String" (generateStringMethodAST T) post := by
  have hv : hasTarget
      (pre ++ Decl.genDecl (some (docs1 ++ c :: docs2)) tok [Spec.typeSpec T] :: post)
      T "Values" = true := by
    rw [hasTarget_marked, hVpre]
    rfl
  have hs : hasTarget
      (pre ++ Decl.genDecl (some (docs1 ++ c :: docs2)) tok [Spec.typeSpec T] :: post)
      T "String" = true := by
    rw [hasTarget_marked, hSpre, hSpost]
    rfl
  rw [generate_marked_unfold pre post tok T h1 h2 hc hpre hpost,
    processType_tt _ hv hs]
  simp only
  rw [replaceMethod_append_left T "Values" _ _ hVpre]
  have hSpre' : hasTarget (replaceMethod T "Values"
      (generateValuesMethodAST T (collectEnumValues
        (pre ++ Decl.genDecl (some (docs1 ++ c :: docs2)) tok [Spec.typeSpec T] :: post) T)) pre)
      T "String" = false := by
    rw [hasTarget_replace_other T T "Values" "String" (by decide)
      (isTargetMethod_synth_values_ne T T "String" _ (by decide)) pre]
    exact hSpre
  rw [replaceMethod_append_right T "String" _ _ hSpre',
    replaceMethod_cons_genDecl T "String" (generateStringMethodAST T) _ _ _ post,
    drop_middle_of_len _ _ _ pre.length (replaceMethod_length T "Values" _ pre)]
  simp

theorem generate_vPost_sNone (pre post : List Decl) (tok : Tok) (T : String)
    {docs1 docs2 : List String} {c : String}
    (h1 : ∀ x ∈ docs1, stringContains x markerText = false)
    (h2 : ∀ x ∈ docs2, stringContains x markerText = false)
    (hc : stringContains c markerText = true)
    (hpre : ∀ x ∈ pre, IsInert x) (hpost : ∀ x ∈ post, IsInert x)
    (hVpre : hasTarget pre T "Values" = false) (hVpost : hasTarget post T "Values" = true)
    (hSpre : hasTarget pre T "String" = false) (hSpost : hasTarget post T "String" = false) :
    generate (pre ++ Decl.genDecl (some (docs1 ++ c :: docs2)) tok [Spec.typeSpec T] :: post)
      = pre ++ Decl.genDecl (some (docs1 ++ c :: docs2)) tok [Spec.typeSpec T]
          :: generateStringMethodAST T
          :: replaceMethod T "Values"
               (generateValuesMethodAST T
                 (collectEnumValues
                   (pre ++ Decl.genDecl (some (docs1 ++ c :: docs2)) tok [Spec.typeSpec T] :: post)
                   T))
               post := by
  have hv : hasTarget
      (pre ++ Decl.genDecl (some (docs1 ++ c :: docs2)) tok [Spec.typeSpec T] :: post)
      T "Values" = true := by
    rw [hasTarget_marked, hVpre, hVpost]
    rfl
  have hs : hasTarget
      (pre ++ Decl.genDecl (some (docs1 ++ c :: docs2)) tok [Spec.typeSpec T] :: post)
      T "String" = false := by
    rw [hasTarget_marked, hSpre, hSpost]
    rfl
  rw [generate_marked_unfold pre post tok T h1 h2 hc hpre hpost,
    processType_tf _ hv hs]
  simp only
  rw [replaceMethod_append_right T "Values" _ _ hVpre,
    replaceMethod_cons_genDecl T "Values" _ _ _ _ post,
    drop_middle_of_len pre _ _ pre.length rfl]
  simp

theorem generate_vPost_sPre (pre post : List Decl) (tok : Tok) (T : String)
    {docs1 docs2 : List String} {c : String}
    (h1 : ∀ x ∈ docs1, stringContains x markerText = false)
    (h2 : ∀ x ∈ docs2, stringContains x markerText = false)
    (hc : stringContains c markerText = true)
    (hpre : ∀ x ∈ pre, IsInert x) (hpost : ∀ x ∈ post, IsInert x)
    (hVpre : hasTarget pre T "Values" = false) (hVpost : hasTarget post T "Values" = true)
    (hSpre : hasTarget pre T "String" = true) :
    generate (pre ++ Decl.genDecl (some (docs1 ++ c :: docs2)) tok [Spec.typeSpec T] :: post)
      = pre ++ Decl.genDecl (some (docs1 ++ c :: docs2)) tok [Spec.typeSpec T]
          :: replaceMethod T "Values"
               (generateValuesMethodAST T
                 (collectEnumValues
                   (pre ++ Decl.genDecl (some (docs1 ++ c :: docs2)) tok [Spec.typeSpec T] :: post)
                   T))
               post := by
  have hv : hasTarget
      (pre ++ Decl.genDecl (some (docs1 ++ c :: docs2)) tok [Spec.typeSpec T] :: post)
      T "Values" = true := by
    rw [hasTarget_marked, hVpre, hVpost]
    rfl
  have hs : hasTarget
      (pre ++ Decl.genDecl (some (docs1 ++ c :: docs2)) tok [Spec.typeSpec T] :: post)
      T "String" = true := by
    rw [hasTarget_marked, hSpre]
    rfl
  rw [generate_marked_unfold pre post tok T h1 h2 hc hpre hpost,
    processType_tt _ hv hs]
  simp only
  rw [replaceMethod_append_right T "Values" _ _ hVpre,
    replaceMethod_cons_genDecl T "Values" _ _ _ _ post]
  have hSpre' : hasTarget pre T "String" = true := hSpre
  rw [replaceMethod_append_left T "String" _ _ hSpre',
    drop_middle_of_len _ _ _ pre.length (replaceMethod_length T "String" _ pre)]
  simp

theorem generate_vPost_sPost (pre post : List Decl) (tok : Tok) (T : String)
    {docs1 docs2 : List String} {c : String}
    (h1 : ∀ x ∈ docs1, stringContains x markerText = false)
    (h2 : ∀ x ∈ docs2, stringContains x markerText = false)
    (hc : stringContains c markerText = true)
    (hpre : ∀ x ∈ pre, IsInert x) (hpost : ∀ x ∈ post, IsInert x)
    (hVpre : hasTarget pre T "Values" = false) (hVpost : hasTarget post T "Values" = true)
    (hSpre : hasTarget pre T "String" = false) (hSpost : hasTarget post T "String" = true) :
    generate (pre ++ Decl.genDecl (some (docs1 ++ c :: docs2)) tok [Spec.typeSpec T] :: post)
      = pre ++ Decl.genDecl (some (docs1 ++ c :: docs2)) tok [Spec.typeSpec T]
          :: replaceMethod T "String" (generateStringMethodAST T)
               (replaceMethod T "Values"
                 (generateValuesMethodAST T
                   (collectEnumValues
                     (pre ++ Decl.genDecl (some (docs1 ++ c :: docs2)) tok
                       [Spec.typeSpec T] :: post)
                     T))
                 post) := by
  have hv : hasTarget
      (pre ++ Decl.genDecl (some (docs1 ++ c :: docs2)) tok [Spec.typeSpec T] :: post)
      T "Values" = true := by
    rw [hasTarget_marked, hVpre, hVpost]
    rfl
  have hs : hasTarget
      (pre ++ Decl.genDecl (some (docs1 ++ c :: docs2)) tok [Spec.typeSpec T] :: post)
      T "String" = true := by
    rw [hasTarget_marked, hSpre, hSpost]
    rfl
  rw [generate_marked_unfold pre post tok T h1 h2 hc hpre hpost,
    processType_tt _ hv hs]
  simp only
  rw [replaceMethod_append_right T "Values" _ _ hVpre,
    replaceMethod_cons_genDecl T "Values" _ _ _ _ post,
    replaceMethod_append_right T "String" _ _ hSpre,
    replaceMethod_cons_genDecl T "String" _ _ _ _ _,
    drop_middle_of_len pre _ _ pre.length rfl]
  simp

end EnumGen

namespace EnumGen

/-! ### Concrete fixtures (modelled on the repository's test file) -/

/-- The marked declaration of the repository's test file:
`// @enumGenerated` above `type gender string`. -/
def genderMarked : Decl :=
  Decl.genDecl (some ["// @enumGenerated"]) Tok.typeTok [Spec.typeSpec "gender"]

/-- The constant group of the test file: `male`, `female`, `unknown`, each
spec with explicit type `gender`. -/
def genderConsts : Decl :=
  Decl.genDecl none Tok.constTok
    [Spec.valueSpec ⟨["male"], some (TyExpr.ident "gender")⟩,
     Spec.valueSpec ⟨["female"], some (TyExpr.ident "gender")⟩,
     Spec.valueSpec ⟨["unknown"], some (TyExpr.ident "gender")⟩]

/-- A pre-existing `Values` method on `gender` with a value receiver and an
arbitrary hand-written body. -/
def oldValuesGender : Decl :=
  Decl.funcDecl (some (RecvTy.ident "gender")) "Values" (Body.raw 7 [])

/-- A `Values` method on `gender` with a pointer receiver `*gender`. -/
def starValuesGender : Decl :=
  Decl.funcDecl (some (RecvTy.star "gender")) "Values" (Body.raw 3 [])

/-- A pre-existing `Values` method on `gender` whose body declares a local
constant `hack` of explicit type `gender`. -/
def hackValuesGender : Decl :=
  Decl.funcDecl (some (RecvTy.ident "gender")) "Values"
    (Body.raw 1 [⟨["hack"], some (TyExpr.ident "gender")⟩])

/-- A variable declaration group `var someVar gender`. -/
def varGenderDecl : Decl :=
  Decl.genDecl none Tok.varTok [Spec.valueSpec ⟨["someVar"], some (TyExpr.ident "gender")⟩]

/-- A marked type declaration whose doc block has two comment lines that both
contain the marker token. -/
def dblMarkedGender : Decl :=
  Decl.genDecl (some ["// @enumGenerated", "// @enumGenerated"]) Tok.typeTok
    [Spec.typeSpec "gender"]

/-! ### Claim theorems: counterexamples and simpler claims -/

/-- C1 counterexample: for the input file whose single declaration is a
marked `gender` type whose doc block contains the marker token in two comment
lines, the run succeeds and the output contains two `Values` methods and two
`String` methods with receiver type `gender` — not exactly one of each, as
the claim states. (Each marker comment line re-runs detection against the
not-yet-extended `file.Decls`, so the methods are appended twice.) -/
theorem C1_counterexample :
    countTarget (generate [dblMarkedGender]) "gender" "Values" = 2
      ∧ countTarget (generate [dblMarkedGender]) "gender" "String" = 2 := by
  constructor <;> rfl

/-- C2 evaluation at the failing input: the input file has a hand-written
`Values` method on `gender` (body `Body.raw 7 []`) placed before the marked
type declaration. `Generate` detects it, prints that it replaces it, and
calls `replaceMethod` — but the replacement mutates `file.Decls`, whose
already-copied prefix `newDecls` keeps the original declaration, so the
output retains the old body: the output's only `Values` method for `gender`
is the old one, not the synthesized one resulting from the collected values
`["male", "female", "unknown"]`. -/
theorem C2_failing_eval :
    generate [oldValuesGender, genderMarked, genderConsts]
      = [oldValuesGender, genderMarked, generateStringMethodAST "gender", genderConsts]
      ∧ (generate [oldValuesGender, genderMarked, genderConsts]).filter
          (isTargetMethod "gender" "Values") = [oldValuesGender]
      ∧ oldValuesGender
          ≠ generateValuesMethodAST "gender" ["male", "female", "unknown"] := by
  refine ⟨by rfl, by rfl, by decide⟩

/-- C3 counterexample: `replaceMethod`, called when no declaration matches
(here the only `Values` method has a pointer receiver, which the scan does
not match), silently returns the declaration list unchanged — there is no
`InconsistentState` failure anywhere in the code, refuting the claim that a
failed replacement scan "fails loudly" and "never silently does nothing". -/
theorem C3_counterexample :
    replaceFound "gender" "Values" [starValuesGender] = false
      ∧ replaceMethod "gender" "Values" (generateValuesMethodAST "gender" [])
          [starValuesGender] = [starValuesGender] := by
  constructor <;> rfl

/-- C3 amended: the detection of 4.4 and the replacement scan of 4.6 use the
same matching predicate over the same declaration list, so whenever detection
reports that a `Values` (or `String`) method exists, the replacement scan
finds a declaration to replace — the inconsistent state is unreachable; and
when the scan finds nothing, `replaceMethod` silently leaves the list
unchanged (no error is raised, but `Generate` only calls it after a positive
detection). -/
theorem C3_amended (fds : List Decl) (T M : String) (m : Decl) :
    ((checkExistingMethods fds T).1 = true → replaceFound T "Values" fds = true)
      ∧ ((checkExistingMethods fds T).2 = true → replaceFound T "String" fds = true)
      ∧ (replaceFound T M fds = false → replaceMethod T M m fds = fds) := by
  refine ⟨?_, ?_, ?_⟩
  · intro h
    rw [checkExistingMethods_eq] at h
    rw [replaceFound_eq]
    exact h
  · intro h
    rw [checkExistingMethods_eq] at h
    rw [replaceFound_eq]
    exact h
  · intro h
    rw [replaceFound_eq] at h
    exact replaceMethod_not_found T M m h

/-- C3 amended, witness: on a file that has a value-receiver `Values` method
on `gender`, detection reports it and the replacement scan finds it. -/
theorem C3_amended_witness :
    (checkExistingMethods [oldValuesGender] "gender").1 = true
      ∧ replaceFound "gender" "Values" [oldValuesGender] = true :=
  ⟨by rfl, (C3_amended [oldValuesGender] "gender" "Values" oldValuesGender).1 (by rfl)⟩

/-- C6 counterexample: on the repository's own fixture (marked type followed
by its constant group, no pre-existing methods), the synthesized methods are
inserted immediately after the marked type declaration, before the
pre-existing constant group — the last declaration of the output is the
pre-existing constant group, so the synthesized declarations do not appear
after every pre-existing declaration as the claim states. -/
theorem C6_counterexample :
    generate [genderMarked, genderConsts]
      = [genderMarked, generateValuesMethodAST "gender" ["male", "female", "unknown"],
         generateStringMethodAST "gender", genderConsts]
      ∧ (generate [genderMarked, genderConsts]).getLast? = some genderConsts
      ∧ genderConsts ∈ [genderMarked, genderConsts] := by
  refine ⟨by rfl, by rfl, by decide⟩

/-- C4 counterexample: the marked `gender` file with a pre-existing `Values`
method whose body declares a local constant `hack` of type `gender`. The
first run collects `hack` (the collector inspects function bodies) and then
replaces that method, destroying the local constant; the second run
therefore collects fewer values and produces a different `Values` body, so
the second run's output differs from the first run's. -/
theorem C4_counterexample :
    generate (generate [genderMarked, genderConsts, hackValuesGender])
      ≠ generate [genderMarked, genderConsts, hackValuesGender] := by
  decide

/-- C7 counterexample: a file whose only declaration is the variable group
`var someVar gender` (no constant declarations at all): the value set
collected for `gender` nevertheless contains `someVar`, because the
collector matches every value spec with the right declared type, whether it
comes from a `const` or a `var` group. -/
theorem C7_counterexample :
    collectEnumValues [varGenderDecl] "gender" = ["someVar"] := by
  rfl

/-- C7 amended: the collector is blind to the declaration-group token: the
value set collected for `T` is unchanged when a group's token (e.g. `const`)
is replaced by any other token (e.g. `var`) — value specs with declared type
`T` contribute regardless of whether they are constants or variables. -/
theorem C7_amended (pre post : List Decl) (doc : Option (List String)) (tok tok' : Tok)
    (specs : List Spec) (T : String) :
    collectEnumValues (pre ++ Decl.genDecl doc tok specs :: post) T
      = collectEnumValues (pre ++ Decl.genDecl doc tok' specs :: post) T := by
  rw [collectEnumValues_append, collectEnumValues_append,
    collectEnumValues_cons, collectEnumValues_cons]
  rfl

/-- C8: when parsing fails, `Generate` reports the error and returns before
reaching `os.Create`: the target file is neither created, truncated nor
written, whatever the state of the filesystem (`createOk`). -/
theorem C8_parse_error_no_write (createOk : Bool) :
    generateRun none createOk = { wrote := false, written := none } := by
  rfl

end EnumGen

namespace EnumGen

/-! ### Helpers for the remaining claims -/

theorem declValueSpecs_genDecl (doc : Option (List String)) (tok : Tok) (specs : List Spec) :
    declValueSpecs (Decl.genDecl doc tok specs) = specs.flatMap specValueSpecs := by
  simpa [declValueSpecs] using foldl_append_eq specValueSpecs specs []

theorem valueSpecNames_of_ty_not_ident {vs : ValueSpecData} (T : String)
    (h : vs.ty = none) : valueSpecNames T vs = [] := by
  unfold valueSpecNames
  rw [h]
  split <;> rfl

theorem collect_cons_nospec {d : Decl} (hd : declValueSpecs d = []) (ds : List Decl)
    (T : String) : collectEnumValues (d :: ds) T = collectEnumValues ds T := by
  rw [collectEnumValues_cons, hd]
  simp

theorem inertAll_isInert {l : List Decl} (h : l.all inertB = true) : ∀ x ∈ l, IsInert x :=
  fun x hx => isInert_of_inertB (List.all_eq_true.mp h x hx)

theorem allNoMarker {l : List String}
    (h : l.all (fun x => !stringContains x markerText) = true) :
    ∀ x ∈ l, stringContains x markerText = false := by
  intro x hx
  have := List.all_eq_true.mp h x hx
  simpa using this

theorem allB_mem {l : List Decl} {p : Decl → Bool} (h : l.all p = true) :
    ∀ x ∈ l, p x = true :=
  fun x hx => List.all_eq_true.mp h x hx

theorem isInert_replaceMethod (T M : String) {m : Decl} (hm : IsInert m) {l : List Decl}
    (hl : ∀ x ∈ l, IsInert x) : ∀ x ∈ replaceMethod T M m l, IsInert x := by
  intro x hx
  rcases mem_replaceMethod hx with h | h
  · exact hl x h
  · exact h ▸ hm

/-! ### Claim theorems: C10, C5, C6 (amended), C9 -/

/-- C10: a value spec with no declared type (`valueSpec.Type` is nil, as on
the continuation lines of an iota-style constant block) never contributes to
the collected value set: removing such a spec from a declaration group leaves
the collection for every target type unchanged. -/
theorem C10_untyped_excluded (pre post : List Decl) (doc : Option (List String)) (tok : Tok)
    (ss1 ss2 : List Spec) (T : String) (vs : ValueSpecData) (h : vs.ty = none) :
    collectEnumValues (pre ++ Decl.genDecl doc tok (ss1 ++ Spec.valueSpec vs :: ss2) :: post) T
      = collectEnumValues (pre ++ Decl.genDecl doc tok (ss1 ++ ss2) :: post) T := by
  rw [collectEnumValues_append, collectEnumValues_append,
    collectEnumValues_cons, collectEnumValues_cons,
    declValueSpecs_genDecl, declValueSpecs_genDecl]
  simp [List.flatMap_append, specValueSpecs, valueSpecNames_of_ty_not_ident T h]

/-- C10 witness: an iota-style group `const ( a gender = ...; b; c )` whose
continuation line declares `b` and `c` without a type: only `a` is
collected, exactly as if the untyped spec were absent. -/
theorem C10_untyped_excluded_witness :
    (⟨["b", "c"], none⟩ : ValueSpecData).ty = none
      ∧ collectEnumValues
          [Decl.genDecl none Tok.constTok
            [Spec.valueSpec ⟨["a"], some (TyExpr.ident "gender")⟩,
             Spec.valueSpec ⟨["b", "c"], none⟩]] "gender"
        = collectEnumValues
            [Decl.genDecl none Tok.constTok
              [Spec.valueSpec ⟨["a"], some (TyExpr.ident "gender")⟩]] "gender" :=
  ⟨rfl, by
    have h := C10_untyped_excluded [] [] none Tok.constTok
      [Spec.valueSpec ⟨["a"], some (TyExpr.ident "gender")⟩] [] "gender"
      ⟨["b", "c"], none⟩ rfl
    simpa using h⟩

/-- C5: order preservation. For a file with a single marked type declaration
`T` (single marker comment, inert context, no pre-existing methods), the
synthesized `Values` method placed in the output has body exactly
`preorderEnumNames T f` — the names of the matching value specs in pre-order
over the whole input tree, with no sorting and no removal of duplicates. -/
theorem C5_order_preservation (pre post : List Decl) (tok : Tok) (T : String)
    (docs1 docs2 : List String) (c : String)
    (h1 : docs1.all (fun x => !stringContains x markerText) = true)
    (h2 : docs2.all (fun x => !stringContains x markerText) = true)
    (hc : stringContains c markerText = true)
    (hpre : pre.all inertB = true) (hpost : post.all inertB = true)
    (hVpre : hasTarget pre T "Values" = false) (hVpost : hasTarget post T "Values" = false)
    (hSpre : hasTarget pre T "String" = false) (hSpost : hasTarget post T "String" = false) :
    generate (pre ++ Decl.genDecl (some (docs1 ++ c :: docs2)) tok [Spec.typeSpec T] :: post)
      = pre ++ Decl.genDecl (some (docs1 ++ c :: docs2)) tok [Spec.typeSpec T]
          :: Decl.funcDecl (some (RecvTy.ident T)) "Values"
               (Body.valuesBody
                 (preorderEnumNames T
                   (pre ++ Decl.genDecl (some (docs1 ++ c :: docs2)) tok
                     [Spec.typeSpec T] :: post)))
          :: generateStringMethodAST T :: post := by
  rw [generate_vNone_sNone pre post tok T (allNoMarker h1) (allNoMarker h2) hc
    (inertAll_isInert hpre) (inertAll_isInert hpost) hVpre hVpost hSpre hSpost,
    collectEnumValues_eq]
  rfl

/-- C5 witness: constants of type `gender` spread over two groups with a
duplicated name: the synthesized body lists `male`, `female`, `female` in
encounter order, undeduplicated. -/
theorem C5_order_preservation_witness :
    preorderEnumNames "gender"
        [genderMarked,
         Decl.genDecl none Tok.constTok
           [Spec.valueSpec ⟨["male"], some (TyExpr.ident "gender")⟩,
            Spec.valueSpec ⟨["female"], some (TyExpr.ident "gender")⟩],
         Decl.genDecl none Tok.constTok
           [Spec.valueSpec ⟨["female"], some (TyExpr.ident "gender")⟩]]
      = ["male", "female", "female"]
      ∧ generate
          [genderMarked,
           Decl.genDecl none Tok.constTok
             [Spec.valueSpec ⟨["male"], some (TyExpr.ident "gender")⟩,
              Spec.valueSpec ⟨["female"], some (TyExpr.ident "gender")⟩],
           Decl.genDecl none Tok.constTok
             [Spec.valueSpec ⟨["female"], some (TyExpr.ident "gender")⟩]]
        = [genderMarked,
           Decl.funcDecl (some (RecvTy.ident "gender")) "Values"
             (Body.valuesBody ["male", "female", "female"]),
           generateStringMethodAST "gender",
           Decl.genDecl none Tok.constTok
             [Spec.valueSpec ⟨["male"], some (TyExpr.ident "gender")⟩,
              Spec.valueSpec ⟨["female"], some (TyExpr.ident "gender")⟩],
           Decl.genDecl none Tok.constTok
             [Spec.valueSpec ⟨["female"], some (TyExpr.ident "gender")⟩]] := by
  constructor
  · rfl
  · have h := C5_order_preservation []
      [Decl.genDecl none Tok.constTok
         [Spec.valueSpec ⟨["male"], some (TyExpr.ident "gender")⟩,
          Spec.valueSpec ⟨["female"], some (TyExpr.ident "gender")⟩],
       Decl.genDecl none Tok.constTok
         [Spec.valueSpec ⟨["female"], some (TyExpr.ident "gender")⟩]]
      Tok.typeTok "gender" [] [] "// @enumGenerated"
      rfl rfl (by rfl) rfl (by rfl) rfl (by rfl) rfl (by rfl)
    simpa using h

/-- C6 amended: when no `Values`/`String` method for the marked type `T`
pre-exists, the synthesized declarations are not appended at the end of the
declaration sequence, but inserted immediately after the marked type
declaration (`Values` then `String`), before every later pre-existing
declaration. -/
theorem C6_amended (pre post : List Decl) (tok : Tok) (T : String)
    (docs1 docs2 : List String) (c : String)
    (h1 : docs1.all (fun x => !stringContains x markerText) = true)
    (h2 : docs2.all (fun x => !stringContains x markerText) = true)
    (hc : stringContains c markerText = true)
    (hpre : pre.all inertB = true) (hpost : post.all inertB = true)
    (hVpre : hasTarget pre T "Values" = false) (hVpost : hasTarget post T "Values" = false)
    (hSpre : hasTarget pre T "String" = false) (hSpost : hasTarget post T "String" = false) :
    generate (pre ++ Decl.genDecl (some (docs1 ++ c :: docs2)) tok [Spec.typeSpec T] :: post)
      = pre ++ Decl.genDecl (some (docs1 ++ c :: docs2)) tok [Spec.typeSpec T]
          :: generateValuesMethodAST T
               (collectEnumValues
                 (pre ++ Decl.genDecl (some (docs1 ++ c :: docs2)) tok [Spec.typeSpec T] :: post)
                 T)
          :: generateStringMethodAST T :: post :=
  generate_vNone_sNone pre post tok T (allNoMarker h1) (allNoMarker h2) hc
    (inertAll_isInert hpre) (inertAll_isInert hpost) hVpre hVpost hSpre hSpost

/-- C6 amended, witness: on the repository fixture the synthesized methods
land between the marked type and its constant group. -/
theorem C6_amended_witness :
    generate [genderMarked, genderConsts]
      = [genderMarked,
         generateValuesMethodAST "gender"
           (collectEnumValues [genderMarked, genderConsts] "gender"),
         generateStringMethodAST "gender", genderConsts] := by
  have h := C6_amended [] [genderConsts] Tok.typeTok "gender" [] [] "// @enumGenerated"
    rfl rfl (by rfl) rfl (by rfl) rfl (by rfl) rfl (by rfl)
  simpa using h

/-- C9: methods are matched only through a bare-identifier receiver. If the
file's only `Values`/`String`-candidates for `T` with identifier receiver do
not exist (in particular when the only pre-existing `Values` method has a
pointer receiver `*T`, as hypothesized through `hmem`), detection reports
both methods as absent, the pointer-receiver method is never replaced and
survives unchanged at its position, and a second, value-receiver `Values`
method is appended. -/
theorem C9_pointer_receiver_ignored (pre post : List Decl) (tok : Tok) (T : String)
    (docs1 docs2 : List String) (c : String) (b : Body)
    (h1 : docs1.all (fun x => !stringContains x markerText) = true)
    (h2 : docs2.all (fun x => !stringContains x markerText) = true)
    (hc : stringContains c markerText = true)
    (hpre : pre.all inertB = true) (hpost : post.all inertB = true)
    (hVpre : hasTarget pre T "Values" = false) (hVpost : hasTarget post T "Values" = false)
    (hSpre : hasTarget pre T "String" = false) (hSpost : hasTarget post T "String" = false)
    (hmem : Decl.funcDecl (some (RecvTy.star T)) "Values" b ∈ pre) :
    checkExistingMethods
        (pre ++ Decl.genDecl (some (docs1 ++ c :: docs2)) tok [Spec.typeSpec T] :: post) T
      = (false, false)
      ∧ generate
          (pre ++ Decl.genDecl (some (docs1 ++ c :: docs2)) tok [Spec.typeSpec T] :: post)
        = pre ++ Decl.genDecl (some (docs1 ++ c :: docs2)) tok [Spec.typeSpec T]
            :: generateValuesMethodAST T
                 (collectEnumValues
                   (pre ++ Decl.genDecl (some (docs1 ++ c :: docs2)) tok
                     [Spec.typeSpec T] :: post) T)
            :: generateStringMethodAST T :: post
      ∧ Decl.funcDecl (some (RecvTy.star T)) "Values" b
          ∈ generate
              (pre ++ Decl.genDecl (some (docs1 ++ c :: docs2)) tok [Spec.typeSpec T] :: post)
      ∧ generateValuesMethodAST T
            (collectEnumValues
              (pre ++ Decl.genDecl (some (docs1 ++ c :: docs2)) tok [Spec.typeSpec T] :: post) T)
          ∈ generate
              (pre ++ Decl.genDecl (some (docs1 ++ c :: docs2)) tok [Spec.typeSpec T] :: post) := by
  have hgen := generate_vNone_sNone pre post tok T (allNoMarker h1) (allNoMarker h2) hc
    (inertAll_isInert hpre) (inertAll_isInert hpost) hVpre hVpost hSpre hSpost
  refine ⟨?_, hgen, ?_, ?_⟩
  · rw [checkExistingMethods_eq, hasTarget_marked, hasTarget_marked, hVpre, hVpost, hSpre, hSpost]
    rfl
  · rw [hgen]
    exact List.mem_append_left _ hmem
  · rw [hgen]
    refine List.mem_append_right _ ?_
    exact List.mem_cons_of_mem _ (List.mem_cons_self _ _)

/-- C9 witness: a pointer-receiver `Values` method before the marked type:
detection reports nothing, the method survives, and a value-receiver
`Values` method is appended after the marked declaration. -/
theorem C9_pointer_receiver_ignored_witness :
    checkExistingMethods [starValuesGender, genderMarked, genderConsts] "gender" = (false, false)
      ∧ generate [starValuesGender, genderMarked, genderConsts]
        = [starValuesGender, genderMarked,
           generateValuesMethodAST "gender"
             (collectEnumValues [starValuesGender, genderMarked, genderConsts] "gender"),
           generateStringMethodAST "gender", genderConsts] := by
  have h := C9_pointer_receiver_ignored [starValuesGender] [genderConsts] Tok.typeTok "gender"
    [] [] "// @enumGenerated" (Body.raw 3 []) rfl rfl (by rfl) (by rfl) (by rfl)
    (by rfl) (by rfl) (by rfl) (by rfl) (by decide)
  exact ⟨by simpa using h.1, by simpa using h.2.1⟩

end EnumGen

namespace EnumGen

/-! ### Counting methods in the output -/

theorem isTargetMethod_genDecl (T M : String) (doc : Option (List String)) (tok : Tok)
    (specs : List Spec) : isTargetMethod T M (Decl.genDecl doc tok specs) = false := rfl

theorem countTarget_generate (pre post : List Decl) (tok : Tok) (T : String)
    {docs1 docs2 : List String} {c : String}
    (h1 : ∀ x ∈ docs1, stringContains x markerText = false)
    (h2 : ∀ x ∈ docs2, stringContains x markerText = false)
    (hc : stringContains c markerText = true)
    (hpre : ∀ x ∈ pre, IsInert x) (hpost : ∀ x ∈ post, IsInert x) :
    countTarget
        (generate (pre ++ Decl.genDecl (some (docs1 ++ c :: docs2)) tok [Spec.typeSpec T] :: post))
        T "Values"
      = (if hasTarget
            (pre ++ Decl.genDecl (some (docs1 ++ c :: docs2)) tok [Spec.typeSpec T] :: post)
            T "Values" = true
         then countTarget
            (pre ++ Decl.genDecl (some (docs1 ++ c :: docs2)) tok [Spec.typeSpec T] :: post)
            T "Values"
         else countTarget
            (pre ++ Decl.genDecl (some (docs1 ++ c :: docs2)) tok [Spec.typeSpec T] :: post)
            T "Values" + 1)
      ∧ countTarget
          (generate
            (pre ++ Decl.genDecl (some (docs1 ++ c :: docs2)) tok [Spec.typeSpec T] :: post))
          T "String"
        = (if hasTarget
              (pre ++ Decl.genDecl (some (docs1 ++ c :: docs2)) tok [Spec.typeSpec T] :: post)
              T "String" = true
           then countTarget
              (pre ++ Decl.genDecl (some (docs1 ++ c :: docs2)) tok [Spec.typeSpec T] :: post)
              T "String"
           else countTarget
              (pre ++ Decl.genDecl (some (docs1 ++ c :: docs2)) tok [Spec.typeSpec T] :: post)
              T "String" + 1) := by
  have hfV : hasTarget
      (pre ++ Decl.genDecl (some (docs1 ++ c :: docs2)) tok [Spec.typeSpec T] :: post)
      T "Values" = (hasTarget pre T "Values" || hasTarget post T "Values") :=
    hasTarget_marked pre post _ tok _ T "Values"
  have hfS : hasTarget
      (pre ++ Decl.genDecl (some (docs1 ++ c :: docs2)) tok [Spec.typeSpec T] :: post)
      T "String" = (hasTarget pre T "String" || hasTarget post T "String") :=
    hasTarget_marked pre post _ tok _ T "String"
  have hVvM : ∀ vs, isTargetMethod T "Values" (generateValuesMethodAST T vs) = true :=
    fun vs => isTargetMethod_synth_values T vs
  have hSvM : ∀ vs, isTargetMethod T "String" (generateValuesMethodAST T vs) = false :=
    fun vs => isTargetMethod_synth_values_ne T T "String" vs (by decide)
  have hVsM : isTargetMethod T "Values" (generateStringMethodAST T) = false :=
    isTargetMethod_synth_string_ne T T "Values" (by decide)
  have hSsM : isTargetMethod T "String" (generateStringMethodAST T) = true :=
    isTargetMethod_synth_string T
  have hrV : ∀ (vs : List String) (l : List Decl) (X Y : String),
      countTarget (replaceMethod T "Values" (generateValuesMethodAST T vs) l) X Y
        = countTarget l X Y :=
    fun vs l X Y => countTarget_replace T "Values" (hVvM vs) X Y l
  have hrS : ∀ (l : List Decl) (X Y : String),
      countTarget (replaceMethod T "String" (generateStringMethodAST T) l) X Y
        = countTarget l X Y :=
    fun l X Y => countTarget_replace T "String" hSsM X Y l
  cases hvp : hasTarget pre T "Values"
  · cases hvq : hasTarget post T "Values"
    · cases hsp : hasTarget pre T "String"
      · cases hsq : hasTarget post T "String"
        · rw [generate_vNone_sNone pre post tok T h1 h2 hc hpre hpost hvp hvq hsp hsq]
          constructor
          · rw [hfV, hvp, hvq]
            simp [countTarget_append, countTarget_cons, isTargetMethod_genDecl, hVvM, hSvM,
              hVsM, hSsM, hrV, hrS]
            try omega
          · rw [hfS, hsp, hsq]
            simp [countTarget_append, countTarget_cons, isTargetMethod_genDecl, hVvM, hSvM,
              hVsM, hSsM, hrV, hrS]
            try omega
        · rw [generate_vNone_sPost pre post tok T h1 h2 hc hpre hpost hvp hvq hsp hsq]
          constructor
          · rw [hfV, hvp, hvq]
            simp [countTarget_append, countTarget_cons, isTargetMethod_genDecl, hVvM, hSvM,
              hVsM, hSsM, hrV, hrS]
            try omega
          · rw [hfS, hsp, hsq]
            simp [countTarget_append, countTarget_cons, isTargetMethod_genDecl, hVvM, hSvM,
              hVsM, hSsM, hrV, hrS]
            try omega
      · rw [generate_vNone_sPre pre post tok T h1 h2 hc hpre hpost hvp hvq hsp]
        constructor
        · rw [hfV, hvp, hvq]
          simp [countTarget_append, countTarget_cons, isTargetMethod_genDecl, hVvM, hSvM,
            hVsM, hSsM, hrV, hrS]
          try omega
        · rw [hfS, hsp]
          simp [countTarget_append, countTarget_cons, isTargetMethod_genDecl, hVvM, hSvM,
            hVsM, hSsM, hrV, hrS]
          try omega
    · cases hsp : hasTarget pre T "String"
      · cases hsq : hasTarget post T "String"
        · rw [generate_vPost_sNone pre post tok T h1 h2 hc hpre hpost hvp hvq hsp hsq]
          constructor
          · rw [hfV, hvp, hvq]
            simp [countTarget_append, countTarget_cons, isTargetMethod_genDecl, hVvM, hSvM,
              hVsM, hSsM, hrV, hrS]
            try omega
          · rw [hfS, hsp, hsq]
            simp [countTarget_append, countTarget_cons, isTargetMethod_genDecl, hVvM, hSvM,
              hVsM, hSsM, hrV, hrS]
            try omega
        · rw [generate_vPost_sPost pre post tok T h1 h2 hc hpre hpost hvp hvq hsp hsq]
          constructor
          · rw [hfV, hvp, hvq]
            simp [countTarget_append, countTarget_cons, isTargetMethod_genDecl, hVvM, hSvM,
              hVsM, hSsM, hrV, hrS]
            try omega
          · rw [hfS, hsp, hsq]
            simp [countTarget_append, countTarget_cons, isTargetMethod_genDecl, hVvM, hSvM,
              hVsM, hSsM, hrV, hrS]
            try omega
      · rw [generate_vPost_sPre pre post tok T h1 h2 hc hpre hpost hvp hvq hsp]
        constructor
        · rw [hfV, hvp, hvq]
          simp [countTarget_append, countTarget_cons, isTargetMethod_genDecl, hVvM, hSvM,
            hVsM, hSsM, hrV, hrS]
          try omega
        · rw [hfS, hsp]
          simp [countTarget_append, countTarget_cons, isTargetMethod_genDecl, hVvM, hSvM,
            hVsM, hSsM, hrV, hrS]
          try omega
  · cases hsp : hasTarget pre T "String"
    · cases hsq : hasTarget post T "String"
      · rw [generate_vPre_sNone pre post tok T h1 h2 hc hpre hpost hvp hsp hsq]
        constructor
        · rw [hfV, hvp]
          simp [countTarget_append, countTarget_cons, isTargetMethod_genDecl, hVvM, hSvM,
            hVsM, hSsM, hrV, hrS]
          try omega
        · rw [hfS, hsp, hsq]
          simp [countTarget_append, countTarget_cons, isTargetMethod_genDecl, hVvM, hSvM,
            hVsM, hSsM, hrV, hrS]
          try omega
      · rw [generate_vPre_sPost pre post tok T h1 h2 hc hpre hpost hvp hsp hsq]
        constructor
        · rw [hfV, hvp]
          simp [countTarget_append, countTarget_cons, isTargetMethod_genDecl, hVvM, hSvM,
            hVsM, hSsM, hrV, hrS]
          try omega
        · rw [hfS, hsp, hsq]
          simp [countTarget_append, countTarget_cons, isTargetMethod_genDecl, hVvM, hSvM,
            hVsM, hSsM, hrV, hrS]
          try omega
    · rw [generate_vPre_sPre pre post tok T h1 h2 hc hpre hpost hvp hsp]
      constructor
      · rw [hfV, hvp]
        simp [countTarget_append, countTarget_cons, isTargetMethod_genDecl, hVvM, hSvM,
          hVsM, hSsM, hrV, hrS]
        try omega
      · rw [hfS, hsp]
        simp [countTarget_append, countTarget_cons, isTargetMethod_genDecl, hVvM, hSvM,
          hVsM, hSsM, hrV, hrS]
        try omega

theorem count_if_one {n : Nat} {b : Bool} (hpos : b = true → 1 ≤ n) (hzero : b = false → n = 0)
    (hle : n ≤ 1) : (if b = true then n else n + 1) = 1 := by
  cases b
  · rw [if_neg (by simp), hzero rfl]
  · rw [if_pos rfl]
    have := hpos rfl
    omega

/-- C1 amended: for a file with a single marked type declaration whose doc
block carries the marker token in exactly one comment line, with a single
type spec `T`, inert context and at most one pre-existing value-receiver
`Values` method and at most one `String` method for `T`, the output contains
exactly one `Values` and exactly one `String` method with receiver type `T`.
(The counterexample shows the single-marker restriction is needed; the
at-most-one restriction is needed because only the first match is ever
replaced, so a second pre-existing method would survive next to it.) -/
theorem C1_amended (pre post : List Decl) (tok : Tok) (T : String)
    (docs1 docs2 : List String) (c : String)
    (h1 : docs1.all (fun x => !stringContains x markerText) = true)
    (h2 : docs2.all (fun x => !stringContains x markerText) = true)
    (hc : stringContains c markerText = true)
    (hpre : pre.all inertB = true) (hpost : post.all inertB = true)
    (hcv : countTarget
        (pre ++ Decl.genDecl (some (docs1 ++ c :: docs2)) tok [Spec.typeSpec T] :: post)
        T "Values" ≤ 1)
    (hcs : countTarget
        (pre ++ Decl.genDecl (some (docs1 ++ c :: docs2)) tok [Spec.typeSpec T] :: post)
        T "String" ≤ 1) :
    countTarget
        (generate (pre ++ Decl.genDecl (some (docs1 ++ c :: docs2)) tok [Spec.typeSpec T] :: post))
        T "Values" = 1
      ∧ countTarget
          (generate
            (pre ++ Decl.genDecl (some (docs1 ++ c :: docs2)) tok [Spec.typeSpec T] :: post))
          T "String" = 1 := by
  obtain ⟨hV, hS⟩ := countTarget_generate pre post tok T (allNoMarker h1) (allNoMarker h2) hc
    (inertAll_isInert hpre) (inertAll_isInert hpost)
  constructor
  · rw [hV]
    exact count_if_one (fun h => countTarget_pos h) (fun h => countTarget_eq_zero h) hcv
  · rw [hS]
    exact count_if_one (fun h => countTarget_pos h) (fun h => countTarget_eq_zero h) hcs

/-- C1 amended, witness: on the repository fixture extended with one
pre-existing `Values` method after the constant group, the output has
exactly one `Values` and one `String` method on `gender`. -/
theorem C1_amended_witness :
    countTarget [genderMarked, genderConsts, oldValuesGender] "gender" "Values" ≤ 1
      ∧ countTarget
          (generate [genderMarked, genderConsts, oldValuesGender]) "gender" "Values" = 1
      ∧ countTarget
          (generate [genderMarked, genderConsts, oldValuesGender]) "gender" "String" = 1 := by
  have h := C1_amended [] [genderConsts, oldValuesGender] Tok.typeTok "gender" [] []
    "// @enumGenerated" rfl rfl (by rfl) rfl (by rfl) (by decide) (by decide)
  exact ⟨by decide, by simpa using h.1, by simpa using h.2⟩

end EnumGen

namespace EnumGen

/-! ### Second-run fixed points: helpers -/

theorem isInert_synth_values (n : String) (vs : List String) :
    IsInert (generateValuesMethodAST n vs) := fun _ => rfl

theorem isInert_synth_string (n : String) : IsInert (generateStringMethodAST n) := fun _ => rfl

theorem collect_cons_typeSpec (doc : Option (List String)) (tok : Tok) (n : String)
    (ds : List Decl) (T : String) :
    collectEnumValues (Decl.genDecl doc tok [Spec.typeSpec n] :: ds) T
      = collectEnumValues ds T := by
  refine collect_cons_nospec ?_ ds T
  rfl

theorem collect_cons_values (n : String) (vs : List String) (ds : List Decl) (T : String) :
    collectEnumValues (generateValuesMethodAST n vs :: ds) T = collectEnumValues ds T := by
  refine collect_cons_nospec ?_ ds T
  rfl

theorem collect_cons_string (n : String) (ds : List Decl) (T : String) :
    collectEnumValues (generateStringMethodAST n :: ds) T = collectEnumValues ds T := by
  refine collect_cons_nospec ?_ ds T
  rfl

theorem collect_replace_values (T n Tp : String) (vs : List String) {l : List Decl}
    (hl : ∀ x ∈ l, noLocalSpecs x = true) :
    collectEnumValues (replaceMethod T "Values" (generateValuesMethodAST n vs) l) Tp
      = collectEnumValues l Tp := by
  refine collect_replaceMethod T "Values" Tp ?_ hl
  rfl

theorem collect_replace_string (T n Tp : String) {l : List Decl}
    (hl : ∀ x ∈ l, noLocalSpecs x = true) :
    collectEnumValues (replaceMethod T "String" (generateStringMethodAST n) l) Tp
      = collectEnumValues l Tp := by
  refine collect_replaceMethod T "String" Tp ?_ hl
  rfl

/-! ### Second-run fixed points, case by case

Each lemma shows that on a first-run output of the corresponding shape, a
second run reproduces the same declaration list, provided the collection over
that output yields the same value list `vs` that the synthesized methods
carry. -/

theorem generate_fixed_vNone_sNone (pre post : List Decl) (tok : Tok) (T : String)
    {docs1 docs2 : List String} {c : String} (vs : List String)
    (h1 : ∀ x ∈ docs1, stringContains x markerText = false)
    (h2 : ∀ x ∈ docs2, stringContains x markerText = false)
    (hc : stringContains c markerText = true)
    (hpre : ∀ x ∈ pre, IsInert x) (hpost : ∀ x ∈ post, IsInert x)
    (hVpre : hasTarget pre T "Values" = false) (hSpre : hasTarget pre T "String" = false)
    (hvs : collectEnumValues
        (pre ++ Decl.genDecl (some (docs1 ++ c :: docs2)) tok [Spec.typeSpec T]
          :: generateValuesMethodAST T vs :: generateStringMethodAST T :: post) T = vs) :
    generate (pre ++ Decl.genDecl (some (docs1 ++ c :: docs2)) tok [Spec.typeSpec T]
        :: generateValuesMethodAST T vs :: generateStringMethodAST T :: post)
      = pre ++ Decl.genDecl (some (docs1 ++ c :: docs2)) tok [Spec.typeSpec T]
          :: generateValuesMethodAST T vs :: generateStringMethodAST T :: post := by
  rw [generate_vPost_sPost pre (generateValuesMethodAST T vs :: generateStringMethodAST T :: post)
    tok T h1 h2 hc hpre
    (by
      intro x hx
      rcases List.mem_cons.mp hx with rfl | hx
      · exact isInert_synth_values T vs
      rcases List.mem_cons.mp hx with rfl | hx
      · exact isInert_synth_string T
      · exact hpost x hx)
    hVpre
    (by rw [hasTarget_cons, isTargetMethod_synth_values]; rfl)
    hSpre
    (by rw [hasTarget_cons, hasTarget_cons, isTargetMethod_synth_string,
        isTargetMethod_synth_values_ne T T "String" vs (by decide)]; rfl)]
  rw [hvs,
    replaceMethod_cons_target T "Values" (generateValuesMethodAST T vs)
      (generateStringMethodAST T :: post) (isTargetMethod_synth_values T vs),
    replaceMethod_cons_other T "String" (generateStringMethodAST T)
      (generateStringMethodAST T :: post)
      (isTargetMethod_synth_values_ne T T "String" vs (by decide)),
    replaceMethod_cons_target T "String" (generateStringMethodAST T) post
      (isTargetMethod_synth_string T)]

theorem generate_fixed_vNone_sPre (pre post : List Decl) (tok : Tok) (T : String)
    {docs1 docs2 : List String} {c : String} (vs : List String)
    (h1 : ∀ x ∈ docs1, stringContains x markerText = false)
    (h2 : ∀ x ∈ docs2, stringContains x markerText = false)
    (hc : stringContains c markerText = true)
    (hpre : ∀ x ∈ pre, IsInert x) (hpost : ∀ x ∈ post, IsInert x)
    (hVpre : hasTarget pre T "Values" = false) (hSpre : hasTarget pre T "String" = true)
    (hvs : collectEnumValues
        (pre ++ Decl.genDecl (some (docs1 ++ c :: docs2)) tok [Spec.typeSpec T]
          :: generateValuesMethodAST T vs :: post) T = vs) :
    generate (pre ++ Decl.genDecl (some (docs1 ++ c :: docs2)) tok [Spec.typeSpec T]
        :: generateValuesMethodAST T vs :: post)
      = pre ++ Decl.genDecl (some (docs1 ++ c :: docs2)) tok [Spec.typeSpec T]
          :: generateValuesMethodAST T vs :: post := by
  rw [generate_vPost_sPre pre (generateValuesMethodAST T vs :: post) tok T h1 h2 hc hpre
    (by
      intro x hx
      rcases List.mem_cons.mp hx with rfl | hx
      · exact isInert_synth_values T vs
      · exact hpost x hx)
    hVpre
    (by rw [hasTarget_cons, isTargetMethod_synth_values]; rfl)
    hSpre]
  rw [hvs,
    replaceMethod_cons_target T "Values" (generateValuesMethodAST T vs) post
      (isTargetMethod_synth_values T vs)]

theorem generate_fixed_vNone_sPost (pre post : List Decl) (tok : Tok) (T : String)
    {docs1 docs2 : List String} {c : String} (vs : List String)
    (h1 : ∀ x ∈ docs1, stringContains x markerText = false)
    (h2 : ∀ x ∈ docs2, stringContains x markerText = false)
    (hc : stringContains c markerText = true)
    (hpre : ∀ x ∈ pre, IsInert x) (hpost : ∀ x ∈ post, IsInert x)
    (hVpre : hasTarget pre T "Values" = false) (hSpre : hasTarget pre T "String" = false)
    (hSpost : hasTarget post T "String" = true)
    (hvs : collectEnumValues
        (pre ++ Decl.genDecl (some (docs1 ++ c :: docs2)) tok [Spec.typeSpec T]
          :: generateValuesMethodAST T vs
          :: replaceMethod T "String" (generateStringMethodAST T) post) T = vs) :
    generate (pre ++ Decl.genDecl (some (docs1 ++ c :: docs2)) tok [Spec.typeSpec T]
        :: generateValuesMethodAST T vs
        :: replaceMethod T "String" (generateStringMethodAST T) post)
      = pre ++ Decl.genDecl (some (docs1 ++ c :: docs2)) tok [Spec.typeSpec T]
          :: generateValuesMethodAST T vs
          :: replaceMethod T "String" (generateStringMethodAST T) post := by
  rw [generate_vPost_sPost pre
    (generateValuesMethodAST T vs :: replaceMethod T "String" (generateStringMethodAST T) post)
    tok T h1 h2 hc hpre
    (by
      intro x hx
      rcases List.mem_cons.mp hx with rfl | hx
      · exact isInert_synth_values T vs
      · exact isInert_replaceMethod T "String" (isInert_synth_string T) hpost x hx)
    hVpre
    (by rw [hasTarget_cons, isTargetMethod_synth_values]; rfl)
    hSpre
    (by rw [hasTarget_cons, isTargetMethod_synth_values_ne T T "String" vs (by decide),
        hasTarget_replace_same T "String" (isTargetMethod_synth_string T) post, hSpost]; rfl)]
  rw [hvs,
    replaceMethod_cons_target T "Values" (generateValuesMethodAST T vs)
      (replaceMethod T "String" (generateStringMethodAST T) post)
      (isTargetMethod_synth_values T vs),
    replaceMethod_cons_other T "String" (generateStringMethodAST T)
      (replaceMethod T "String" (generateStringMethodAST T) post)
      (isTargetMethod_synth_values_ne T T "String" vs (by decide)),
    replaceMethod_idem T "String" (isTargetMethod_synth_string T) post]

end EnumGen

namespace EnumGen

theorem generate_fixed_vPre_sNone (pre post : List Decl) (tok : Tok) (T : String)
    {docs1 docs2 : List String} {c : String}
    (h1 : ∀ x ∈ docs1, stringContains x markerText = false)
    (h2 : ∀ x ∈ docs2, stringContains x markerText = false)
    (hc : stringContains c markerText = true)
    (hpre : ∀ x ∈ pre, IsInert x) (hpost : ∀ x ∈ post, IsInert x)
    (hVpre : hasTarget pre T "Values" = true) (hSpre : hasTarget pre T "String" = false) :
    generate (pre ++ Decl.genDecl (some (docs1 ++ c :: docs2)) tok [Spec.typeSpec T]
        :: generateStringMethodAST T :: post)
      = pre ++ Decl.genDecl (some (docs1 ++ c :: docs2)) tok [Spec.typeSpec T]
          :: generateStringMethodAST T :: post := by
  rw [generate_vPre_sPost pre (generateStringMethodAST T :: post) tok T h1 h2 hc hpre
    (by
      intro x hx
      rcases List.mem_cons.mp hx with rfl | hx
      · exact isInert_synth_string T
      · exact hpost x hx)
    hVpre hSpre
    (by rw [hasTarget_cons, isTargetMethod_synth_string]; rfl)]
  rw [replaceMethod_cons_target T "String" (generateStringMethodAST T) post
    (isTargetMethod_synth_string T)]

theorem generate_fixed_vPre_sPost (pre post : List Decl) (tok : Tok) (T : String)
    {docs1 docs2 : List String} {c : String}
    (h1 : ∀ x ∈ docs1, stringContains x markerText = false)
    (h2 : ∀ x ∈ docs2, stringContains x markerText = false)
    (hc : stringContains c markerText = true)
    (hpre : ∀ x ∈ pre, IsInert x) (hpost : ∀ x ∈ post, IsInert x)
    (hVpre : hasTarget pre T "Values" = true) (hSpre : hasTarget pre T "String" = false)
    (hSpost : hasTarget post T "String" = true) :
    generate (pre ++ Decl.genDecl (some (docs1 ++ c :: docs2)) tok [Spec.typeSpec T]
        :: replaceMethod T "String" (generateStringMethodAST T) post)
      = pre ++ Decl.genDecl (some (docs1 ++ c :: docs2)) tok [Spec.typeSpec T]
          :: replaceMethod T "String" (generateStringMethodAST T) post := by
  rw [generate_vPre_sPost pre (replaceMethod T "String" (generateStringMethodAST T) post)
    tok T h1 h2 hc hpre
    (isInert_replaceMethod T "String" (isInert_synth_string T) hpost)
    hVpre hSpre
    (by rw [hasTarget_replace_same T "String" (isTargetMethod_synth_string T) post, hSpost])]
  rw [replaceMethod_idem T "String" (isTargetMethod_synth_string T) post]

theorem generate_fixed_vPost_sNone (pre post : List Decl) (tok : Tok) (T : String)
    {docs1 docs2 : List String} {c : String} (vs : List String)
    (h1 : ∀ x ∈ docs1, stringContains x markerText = false)
    (h2 : ∀ x ∈ docs2, stringContains x markerText = false)
    (hc : stringContains c markerText = true)
    (hpre : ∀ x ∈ pre, IsInert x) (hpost : ∀ x ∈ post, IsInert x)
    (hVpre : hasTarget pre T "Values" = false) (hVpost : hasTarget post T "Values" = true)
    (hSpre : hasTarget pre T "String" = false)
    (hvs : collectEnumValues
        (pre ++ Decl.genDecl (some (docs1 ++ c :: docs2)) tok [Spec.typeSpec T]
          :: generateStringMethodAST T
          :: replaceMethod T "Values" (generateValuesMethodAST T vs) post) T = vs) :
    generate (pre ++ Decl.genDecl (some (docs1 ++ c :: docs2)) tok [Spec.typeSpec T]
        :: generateStringMethodAST T
        :: replaceMethod T "Values" (generateValuesMethodAST T vs) post)
      = pre ++ Decl.genDecl (some (docs1 ++ c :: docs2)) tok [Spec.typeSpec T]
          :: generateStringMethodAST T
          :: replaceMethod T "Values" (generateValuesMethodAST T vs) post := by
  rw [generate_vPost_sPost pre
    (generateStringMethodAST T :: replaceMethod T "Values" (generateValuesMethodAST T vs) post)
    tok T h1 h2 hc hpre
    (by
      intro x hx
      rcases List.mem_cons.mp hx with rfl | hx
      · exact isInert_synth_string T
      · exact isInert_replaceMethod T "Values" (isInert_synth_values T vs) hpost x hx)
    hVpre
    (by rw [hasTarget_cons, isTargetMethod_synth_string_ne T T "Values" (by decide),
        hasTarget_replace_same T "Values" (isTargetMethod_synth_values T vs) post, hVpost]; rfl)
    hSpre
    (by rw [hasTarget_cons, isTargetMethod_synth_string]; rfl)]
  rw [hvs,
    replaceMethod_cons_other T "Values" (generateValuesMethodAST T vs)
      (replaceMethod T "Values" (generateValuesMethodAST T vs) post)
      (isTargetMethod_synth_string_ne T T "Values" (by decide)),
    replaceMethod_idem T "Values" (isTargetMethod_synth_values T vs) post,
    replaceMethod_cons_target T "String" (generateStringMethodAST T)
      (replaceMethod T "Values" (generateValuesMethodAST T vs) post)
      (isTargetMethod_synth_string T)]

theorem generate_fixed_vPost_sPre (pre post : List Decl) (tok : Tok) (T : String)
    {docs1 docs2 : List String} {c : String} (vs : List String)
    (h1 : ∀ x ∈ docs1, stringContains x markerText = false)
    (h2 : ∀ x ∈ docs2, stringContains x markerText = false)
    (hc : stringContains c markerText = true)
    (hpre : ∀ x ∈ pre, IsInert x) (hpost : ∀ x ∈ post, IsInert x)
    (hVpre : hasTarget pre T "Values" = false) (hVpost : hasTarget post T "Values" = true)
    (hSpre : hasTarget pre T "String" = true)
    (hvs : collectEnumValues
        (pre ++ Decl.genDecl (some (docs1 ++ c :: docs2)) tok [Spec.typeSpec T]
          :: replaceMethod T "Values" (generateValuesMethodAST T vs) post) T = vs) :
    generate (pre ++ Decl.genDecl (some (docs1 ++ c :: docs2)) tok [Spec.typeSpec T]
        :: replaceMethod T "Values" (generateValuesMethodAST T vs) post)
      = pre ++ Decl.genDecl (some (docs1 ++ c :: docs2)) tok [Spec.typeSpec T]
          :: replaceMethod T "Values" (generateValuesMethodAST T vs) post := by
  rw [generate_vPost_sPre pre (replaceMethod T "Values" (generateValuesMethodAST T vs) post)
    tok T h1 h2 hc hpre
    (isInert_replaceMethod T "Values" (isInert_synth_values T vs) hpost)
    hVpre
    (by rw [hasTarget_replace_same T "Values" (isTargetMethod_synth_values T vs) post, hVpost])
    hSpre]
  rw [hvs, replaceMethod_idem T "Values" (isTargetMethod_synth_values T vs) post]

theorem generate_fixed_vPost_sPost (pre post : List Decl) (tok : Tok) (T : String)
    {docs1 docs2 : List String} {c : String} (vs : List String)
    (h1 : ∀ x ∈ docs1, stringContains x markerText = false)
    (h2 : ∀ x ∈ docs2, stringContains x markerText = false)
    (hc : stringContains c markerText = true)
    (hpre : ∀ x ∈ pre, IsInert x) (hpost : ∀ x ∈ post, IsInert x)
    (hVpre : hasTarget pre T "Values" = false) (hVpost : hasTarget post T "Values" = true)
    (hSpre : hasTarget pre T "String" = false) (hSpost : hasTarget post T "String" = true)
    (hvs : collectEnumValues
        (pre ++ Decl.genDecl (some (docs1 ++ c :: docs2)) tok [Spec.typeSpec T]
          :: replaceMethod T "String" (generateStringMethodAST T)
               (replaceMethod T "Values" (generateValuesMethodAST T vs) post)) T = vs) :
    generate (pre ++ Decl.genDecl (some (docs1 ++ c :: docs2)) tok [Spec.typeSpec T]
        :: replaceMethod T "String" (generateStringMethodAST T)
             (replaceMethod T "Values" (generateValuesMethodAST T vs) post))
      = pre ++ Decl.genDecl (some (docs1 ++ c :: docs2)) tok [Spec.typeSpec T]
          :: replaceMethod T "String" (generateStringMethodAST T)
               (replaceMethod T "Values" (generateValuesMethodAST T vs) post) := by
  rw [generate_vPost_sPost pre
    (replaceMethod T "String" (generateStringMethodAST T)
      (replaceMethod T "Values" (generateValuesMethodAST T vs) post))
    tok T h1 h2 hc hpre
    (isInert_replaceMethod T "String" (isInert_synth_string T)
      (isInert_replaceMethod T "Values" (isInert_synth_values T vs) hpost))
    hVpre
    (by rw [hasTarget_replace_other T T "String" "Values" (by decide)
        (isTargetMethod_synth_string_ne T T "Values" (by decide)),
        hasTarget_replace_same T "Values" (isTargetMethod_synth_values T vs) post, hVpost])
    hSpre
    (by rw [hasTarget_replace_same T "String" (isTargetMethod_synth_string T),
        hasTarget_replace_other T T "Values" "String" (by decide)
          (isTargetMethod_synth_values_ne T T "String" vs (by decide)) post, hSpost])]
  rw [hvs,
    replaceMethod_comm T T "Values" "String" (by decide)
      (isTargetMethod_synth_values_ne T T "String" vs (by decide))
      (isTargetMethod_synth_string_ne T T "Values" (by decide))
      (replaceMethod T "Values" (generateValuesMethodAST T vs) post),
    replaceMethod_idem T "Values" (isTargetMethod_synth_values T vs) post,
    replaceMethod_idem T "String" (isTargetMethod_synth_string T)
      (replaceMethod T "Values" (generateValuesMethodAST T vs) post)]

end EnumGen

namespace EnumGen

theorem noLocal_replace_values (T n : String) (vs : List String) {l : List Decl}
    (hl : ∀ x ∈ l, noLocalSpecs x = true) :
    ∀ x ∈ replaceMethod T "Values" (generateValuesMethodAST n vs) l, noLocalSpecs x = true := by
  refine noLocalSpecs_replaceMethod T "Values" ?_ hl
  rfl

/-- C4 amended: `Generate` is idempotent on files with a single marked type
declaration (one marker comment line, one type spec) in an inert context,
provided no method body of the remaining declarations declares value specs
(function-local constants or variables with an explicit type): for every such
file on which the first run succeeds, running `Generate` again on the first
run's output reproduces that output exactly. (The counterexample shows the
body restriction is needed: a local constant of the enum type inside a
replaced method contributes to the first collection but is destroyed by the
replacement, so the second run collects a different sequence.) -/
theorem C4_amended (pre post : List Decl) (tok : Tok) (T : String)
    (docs1 docs2 : List String) (c : String)
    (h1 : docs1.all (fun x => !stringContains x markerText) = true)
    (h2 : docs2.all (fun x => !stringContains x markerText) = true)
    (hc : stringContains c markerText = true)
    (hpre : pre.all inertB = true) (hpost : post.all inertB = true)
    (hnl : post.all noLocalSpecs = true) :
    generate
        (generate (pre ++ Decl.genDecl (some (docs1 ++ c :: docs2)) tok [Spec.typeSpec T] :: post))
      = generate (pre ++ Decl.genDecl (some (docs1 ++ c :: docs2)) tok [Spec.typeSpec T] :: post)
    := by
  have h1' := allNoMarker h1
  have h2' := allNoMarker h2
  have hpre' := inertAll_isInert hpre
  have hpost' := inertAll_isInert hpost
  have hnl' := allB_mem hnl
  have hsplitf : collectEnumValues
      (pre ++ Decl.genDecl (some (docs1 ++ c :: docs2)) tok [Spec.typeSpec T] :: post) T
      = collectEnumValues pre T ++ collectEnumValues post T := by
    rw [collectEnumValues_append, collect_cons_typeSpec]
  cases hvp : hasTarget pre T "Values"
  · cases hvq : hasTarget post T "Values"
    · cases hsp : hasTarget pre T "String"
      · cases hsq : hasTarget post T "String"
        · rw [generate_vNone_sNone pre post tok T h1' h2' hc hpre' hpost' hvp hvq hsp hsq]
          refine generate_fixed_vNone_sNone pre post tok T _ h1' h2' hc hpre' hpost'
            hvp hsp ?_
          rw [collectEnumValues_append, collect_cons_typeSpec, collect_cons_values,
            collect_cons_string, hsplitf]
        · rw [generate_vNone_sPost pre post tok T h1' h2' hc hpre' hpost' hvp hvq hsp hsq]
          refine generate_fixed_vNone_sPost pre post tok T _ h1' h2' hc hpre' hpost'
            hvp hsp hsq ?_
          rw [collectEnumValues_append, collect_cons_typeSpec, collect_cons_values,
            collect_replace_string T T T hnl', hsplitf]
      · rw [generate_vNone_sPre pre post tok T h1' h2' hc hpre' hpost' hvp hvq hsp]
        refine generate_fixed_vNone_sPre pre post tok T _ h1' h2' hc hpre' hpost'
          hvp hsp ?_
        rw [collectEnumValues_append, collect_cons_typeSpec, collect_cons_values, hsplitf]
    · cases hsp : hasTarget pre T "String"
      · cases hsq : hasTarget post T "String"
        · rw [generate_vPost_sNone pre post tok T h1' h2' hc hpre' hpost' hvp hvq hsp hsq]
          refine generate_fixed_vPost_sNone pre post tok T _ h1' h2' hc hpre' hpost'
            hvp hvq hsp ?_
          rw [collectEnumValues_append, collect_cons_typeSpec, collect_cons_string,
            collect_replace_values T T T _ hnl', hsplitf]
        · rw [generate_vPost_sPost pre post tok T h1' h2' hc hpre' hpost' hvp hvq hsp hsq]
          refine generate_fixed_vPost_sPost pre post tok T _ h1' h2' hc hpre' hpost'
            hvp hvq hsp hsq ?_
          rw [collectEnumValues_append, collect_cons_typeSpec,
            collect_replace_string T T T (noLocal_replace_values T T _ hnl'),
            collect_replace_values T T T _ hnl', hsplitf]
      · rw [generate_vPost_sPre pre post tok T h1' h2' hc hpre' hpost' hvp hvq hsp]
        refine generate_fixed_vPost_sPre pre post tok T _ h1' h2' hc hpre' hpost'
          hvp hvq hsp ?_
        rw [collectEnumValues_append, collect_cons_typeSpec,
          collect_replace_values T T T _ hnl', hsplitf]
  · cases hsp : hasTarget pre T "String"
    · cases hsq : hasTarget post T "String"
      · rw [generate_vPre_sNone pre post tok T h1' h2' hc hpre' hpost' hvp hsp hsq]
        exact generate_fixed_vPre_sNone pre post tok T h1' h2' hc hpre' hpost' hvp hsp
      · rw [generate_vPre_sPost pre post tok T h1' h2' hc hpre' hpost' hvp hsp hsq]
        exact generate_fixed_vPre_sPost pre post tok T h1' h2' hc hpre' hpost' hvp hsp hsq
    · rw [generate_vPre_sPre pre post tok T h1' h2' hc hpre' hpost' hvp hsp]
      exact generate_vPre_sPre pre post tok T h1' h2' hc hpre' hpost' hvp hsp

/-- C4 amended, witness: on the repository fixture a second run reproduces
the first run's output exactly. -/
theorem C4_amended_witness :
    generate (generate [genderMarked, genderConsts])
      = generate [genderMarked, genderConsts] := by
  have h := C4_amended [] [genderConsts] Tok.typeTok "gender" [] [] "// @enumGenerated"
    rfl rfl (by rfl) rfl (by rfl) (by rfl)
  simpa using h

end EnumGen
